import Mathlib

/-!
Verification of the options_hackathon pricing/risk core.

This file gives a shallow embedding, over `ℝ`, of the quantitative core of
the repository (`src/black_scholes.py`, `src/greeks.py`, `src/scenarios.py`,
`src/volatility.py`, `src/data_loader.py`, `src/config.py`) and proves the
behavioural claims about it.  Python floats are modelled as real numbers;
pandas NaN entries of a rolling window are modelled as `Option.none`;
Python's stable `sorted` is modelled by a stable insertion sort.
-/

noncomputable section

open Real

namespace BlackScholes

/-- The Gauss error function, `erf z = (2/√π) · ∫ t in 0..z, exp (-t²)`;
`math.erf` used by `norm_cdf` in `src/black_scholes.py`. -/
def erf (z : ℝ) : ℝ := (2 / Real.sqrt π) * ∫ t in (0:ℝ)..z, Real.exp (-t ^ 2)

/-- `norm_cdf` from `src/black_scholes.py`:
`0.5 * (1.0 + math.erf(x / math.sqrt(2.0)))`. -/
def norm_cdf (x : ℝ) : ℝ := 0.5 * (1.0 + erf (x / Real.sqrt 2.0))

/-- `norm_pdf` from `src/black_scholes.py`:
`math.exp(-0.5 * x * x) / math.sqrt(2.0 * math.pi)`. -/
def norm_pdf (x : ℝ) : ℝ := Real.exp (-0.5 * x * x) / Real.sqrt (2.0 * π)

/-- The state of an `OptionPricer` instance (`src/black_scholes.py`). -/
structure OptionPricer where
  S : ℝ
  K : ℝ
  T : ℝ
  r : ℝ
  sigma_hv : ℝ
  sigma_iv : ℝ

/-- `OptionPricer.__init__`: stores the inputs, flooring `T` at `0.001`
(`self.T = max(T, 0.001)`). -/
def mkPricer (S K T r sigma_hv sigma_iv : ℝ) : OptionPricer :=
  ⟨S, K, max T 0.001, r, sigma_hv, sigma_iv⟩

namespace OptionPricer

/-- `OptionPricer._d1`. -/
def d1 (p : OptionPricer) (sigma : ℝ) : ℝ :=
  (Real.log (p.S / p.K) + (p.r + 0.5 * sigma ^ 2) * p.T) / (sigma * Real.sqrt p.T)

/-- `OptionPricer._d2`. -/
def d2 (p : OptionPricer) (sigma : ℝ) : ℝ :=
  p.d1 sigma - sigma * Real.sqrt p.T

/-- `OptionPricer._bs_call_price`. -/
def bs_call_price (p : OptionPricer) (sigma : ℝ) : ℝ :=
  p.S * norm_cdf (p.d1 sigma) - p.K * Real.exp (-p.r * p.T) * norm_cdf (p.d2 sigma)

/-- `OptionPricer._bs_put_price`. -/
def bs_put_price (p : OptionPricer) (sigma : ℝ) : ℝ :=
  p.K * Real.exp (-p.r * p.T) * norm_cdf (-p.d2 sigma) - p.S * norm_cdf (-p.d1 sigma)

/-- `OptionPricer._get_valuation`. -/
def get_valuation (price_hv price_iv : ℝ) : String :=
  let diff_pct : ℝ := if price_hv > 0 then (price_iv - price_hv) / price_hv * 100 else 0
  if diff_pct > 20 then "EXPENSIVE"
  else if diff_pct < -20 then "CHEAP"
  else "FAIR"

/-- The record returned by `OptionPricer.calculate` / `calculate_put`. -/
structure CalcResult where
  price_hv : ℝ
  price_iv : ℝ
  mispricing : ℝ
  mispricing_pct : ℝ
  valuation : String

/-- `OptionPricer.calculate`. -/
def calculate (p : OptionPricer) : CalcResult :=
  let price_hv := p.bs_call_price p.sigma_hv
  let price_iv := p.bs_call_price p.sigma_iv
  { price_hv := price_hv
    price_iv := price_iv
    mispricing := price_iv - price_hv
    mispricing_pct := if price_hv > 0 then (price_iv - price_hv) / price_hv * 100 else 0
    valuation := get_valuation price_hv price_iv }

/-- `OptionPricer.calculate_put`. -/
def calculate_put (p : OptionPricer) : CalcResult :=
  let price_hv := p.bs_put_price p.sigma_hv
  let price_iv := p.bs_put_price p.sigma_iv
  { price_hv := price_hv
    price_iv := price_iv
    mispricing := price_iv - price_hv
    mispricing_pct := if price_hv > 0 then (price_iv - price_hv) / price_hv * 100 else 0
    valuation := get_valuation price_hv price_iv }

/-- `OptionPricer.get_d1` (evaluated at `sigma_iv`). -/
def get_d1 (p : OptionPricer) : ℝ := p.d1 p.sigma_iv

/-- `OptionPricer.get_d2` (evaluated at `sigma_iv`). -/
def get_d2 (p : OptionPricer) : ℝ := p.d2 p.sigma_iv

end OptionPricer

end BlackScholes

namespace BlackScholes

/-- Characterisation of `_get_valuation` against the guarded mispricing
percentage it recomputes. -/
theorem get_valuation_spec (a b : ℝ) :
    let q : ℝ := if a > 0 then (b - a) / a * 100 else 0
    (OptionPricer.get_valuation a b = "EXPENSIVE" ↔ 20 < q) ∧
    (OptionPricer.get_valuation a b = "CHEAP" ↔ q < -20) ∧
    (OptionPricer.get_valuation a b = "FAIR" ↔ -20 ≤ q ∧ q ≤ 20) := by
  intro q
  have hq : OptionPricer.get_valuation a b =
      if q > 20 then "EXPENSIVE" else if q < -20 then "CHEAP" else "FAIR" := rfl
  rw [hq]
  split_ifs with h1 h2
  · refine ⟨⟨fun _ => h1, fun _ => rfl⟩, ⟨fun h => absurd h (by decide), fun h => by linarith⟩,
      ⟨fun h => absurd h (by decide), fun h => by linarith [h.2]⟩⟩
  · refine ⟨⟨fun h => absurd h (by decide), fun h => by linarith⟩, ⟨fun _ => h2, fun _ => rfl⟩,
      ⟨fun h => absurd h (by decide), fun h => by linarith [h.1]⟩⟩
  · refine ⟨⟨fun h => absurd h (by decide), fun h => by linarith⟩,
      ⟨fun h => absurd h (by decide), fun h => by linarith⟩,
      ⟨fun _ => ⟨by linarith, by linarith⟩, fun _ => rfl⟩⟩

end BlackScholes

open BlackScholes in
/-- C1: for every pricer with `S>0`, `K>0` and positive volatilities,
`calculate()` returns the Black-Scholes call prices at `sigma_hv` and
`sigma_iv`, the mispricing percentage `(price_iv - price_hv)/price_hv * 100`
guarded to `0` when `price_hv ≤ 0`, and a valuation label that is
`EXPENSIVE` exactly when that percentage exceeds 20, `CHEAP` exactly when it
is below -20, and `FAIR` otherwise. -/
theorem C1_calculate_spec (p : OptionPricer)
    (hS : 0 < p.S) (hK : 0 < p.K) (hhv : 0 < p.sigma_hv) (hiv : 0 < p.sigma_iv) :
    p.calculate.price_hv = p.bs_call_price p.sigma_hv ∧
    p.calculate.price_iv = p.bs_call_price p.sigma_iv ∧
    (0 < p.calculate.price_hv →
      p.calculate.mispricing_pct =
        (p.calculate.price_iv - p.calculate.price_hv) / p.calculate.price_hv * 100) ∧
    (p.calculate.price_hv ≤ 0 → p.calculate.mispricing_pct = 0) ∧
    (p.calculate.valuation = "EXPENSIVE" ↔ 20 < p.calculate.mispricing_pct) ∧
    (p.calculate.valuation = "CHEAP" ↔ p.calculate.mispricing_pct < -20) ∧
    (p.calculate.valuation = "FAIR" ↔
      -20 ≤ p.calculate.mispricing_pct ∧ p.calculate.mispricing_pct ≤ 20) := by
  obtain ⟨hE, hC, hF⟩ :=
    get_valuation_spec (p.bs_call_price p.sigma_hv) (p.bs_call_price p.sigma_iv)
  refine ⟨rfl, rfl, ?_, ?_, hE, hC, hF⟩
  · intro h
    have h' : p.bs_call_price p.sigma_hv > 0 := h
    show (if p.bs_call_price p.sigma_hv > 0 then _ else (0:ℝ)) = _
    rw [if_pos h']
    rfl
  · intro h
    have h' : ¬ p.bs_call_price p.sigma_hv > 0 := by
      simpa using (h : p.bs_call_price p.sigma_hv ≤ 0)
    show (if p.bs_call_price p.sigma_hv > 0 then _ else (0:ℝ)) = 0
    rw [if_neg h']

open BlackScholes in
/-- Witness for C1 at the concrete pricer `(S,K,T,r,hv,iv) = (100,90,1,0.05,0.3,0.4)`. -/
theorem C1_calculate_spec_witness :
    (mkPricer 100 90 1 0.05 0.3 0.4).calculate.price_hv =
      (mkPricer 100 90 1 0.05 0.3 0.4).bs_call_price 0.3 ∧
    ((mkPricer 100 90 1 0.05 0.3 0.4).calculate.valuation = "EXPENSIVE" ↔
      20 < (mkPricer 100 90 1 0.05 0.3 0.4).calculate.mispricing_pct) :=
  have h := C1_calculate_spec (mkPricer 100 90 1 0.05 0.3 0.4)
    (by norm_num [mkPricer]) (by norm_num [mkPricer])
    (by norm_num [mkPricer]) (by norm_num [mkPricer])
  ⟨h.1, h.2.2.2.2.1⟩

namespace Greeks

open BlackScholes

/-- The state of a `GreeksCalculator` (`src/greeks.py`): copies of the
pricer's inputs together with `d1`/`d2` evaluated at `sigma_iv`. -/
structure GreeksCalculator where
  S : ℝ
  K : ℝ
  T : ℝ
  r : ℝ
  sigma : ℝ
  d1 : ℝ
  d2 : ℝ
  option_type : String

/-- Python `str.lower()` (ASCII), used by `GreeksCalculator.__init__`. -/
def pyLower (s : String) : String := ⟨s.data.map Char.toLower⟩

/-- `GreeksCalculator.__init__`. -/
def mkGreeks (p : OptionPricer) (option_type : String) : GreeksCalculator :=
  ⟨p.S, p.K, p.T, p.r, p.sigma_iv, p.get_d1, p.get_d2, pyLower option_type⟩

namespace GreeksCalculator

/-- `GreeksCalculator._delta`. -/
def delta (g : GreeksCalculator) : ℝ :=
  if g.option_type = "put" then norm_cdf g.d1 - 1 else norm_cdf g.d1

/-- `GreeksCalculator._gamma`. -/
def gamma (g : GreeksCalculator) : ℝ :=
  norm_pdf g.d1 / (g.S * g.sigma * Real.sqrt g.T)

/-- `GreeksCalculator._theta` (daily theta, annual divided by 365). -/
def theta (g : GreeksCalculator) : ℝ :=
  let term1 := -(g.S * norm_pdf g.d1 * g.sigma) / (2 * Real.sqrt g.T)
  let term2 :=
    if g.option_type = "put" then
      -g.r * g.K * Real.exp (-g.r * g.T) * norm_cdf (-g.d2)
    else
      g.r * g.K * Real.exp (-g.r * g.T) * norm_cdf g.d2
  (term1 - term2) / 365

/-- `GreeksCalculator._vega`. -/
def vega (g : GreeksCalculator) : ℝ :=
  g.S * Real.sqrt g.T * norm_pdf g.d1 / 100

/-- `GreeksCalculator._rho`. -/
def rho (g : GreeksCalculator) : ℝ :=
  if g.option_type = "put" then
    -g.K * g.T * Real.exp (-g.r * g.T) * norm_cdf (-g.d2) / 100
  else
    g.K * g.T * Real.exp (-g.r * g.T) * norm_cdf g.d2 / 100

end GreeksCalculator

end Greeks

namespace Scenarios

open BlackScholes

/-- The state of a `ScenarioEngine` (`src/scenarios.py`). -/
structure ScenarioEngine where
  S : ℝ
  K : ℝ
  T : ℝ
  r : ℝ
  sigma : ℝ
  market_price : ℝ
  num_contracts : ℝ

/-- `ScenarioEngine.__init__` (reads `sigma_iv` from the pricer). -/
def mkEngine (p : OptionPricer) (market_price num_contracts : ℝ) : ScenarioEngine :=
  ⟨p.S, p.K, p.T, p.r, p.sigma_iv, market_price, num_contracts⟩

/-- `ScenarioEngine._bs_call`. -/
def bs_call (S K T r sigma : ℝ) : ℝ :=
  let d1 := (Real.log (S / K) + (r + 0.5 * sigma ^ 2) * T) / (sigma * Real.sqrt T)
  let d2 := d1 - sigma * Real.sqrt T
  S * norm_cdf d1 - K * Real.exp (-r * T) * norm_cdf d2

/-- One entry of the fixed scenario table in `ScenarioEngine.run`. -/
structure ScenarioSpec where
  name : String
  stock_chg : ℝ
  vol_chg : ℝ
  days : ℝ

/-- The fixed 7-entry scenario list of `ScenarioEngine.run`. -/
def scenarioList : List ScenarioSpec :=
  [⟨"Bull Rally", 0.15, -0.05, 7⟩,
   ⟨"Moderate Up", 0.05, 0.0, 7⟩,
   ⟨"Flat", 0.0, 0.0, 7⟩,
   ⟨"Moderate Down", -0.05, 0.05, 7⟩,
   ⟨"Crash", -0.15, 0.20, 7⟩,
   ⟨"Vol Spike", 0.0, 0.10, 7⟩,
   ⟨"Vol Crush", 0.0, -0.10, 7⟩]

namespace ScenarioEngine

/-- The shocked spot used by `_calculate_scenario_pnl`. -/
def newS (e : ScenarioEngine) (stock_change : ℝ) : ℝ := e.S * (1 + stock_change)

/-- The shocked (floored) volatility used by `_calculate_scenario_pnl`. -/
def newSigma (e : ScenarioEngine) (vol_change : ℝ) : ℝ := max (e.sigma + vol_change) 0.05

/-- The shocked (floored) time to expiry used by `_calculate_scenario_pnl`. -/
def newT (e : ScenarioEngine) (days : ℝ) : ℝ := max (e.T - days / 365) 0.001

/-- `ScenarioEngine._calculate_scenario_pnl`. -/
def calculate_scenario_pnl (e : ScenarioEngine) (stock_change vol_change days : ℝ) : ℝ :=
  let new_price := bs_call (e.newS stock_change) e.K (e.newT days) e.r (e.newSigma vol_change)
  (new_price - e.market_price) * 100 * e.num_contracts

end ScenarioEngine

/-- One row of the result table built in `ScenarioEngine.run`. -/
structure ScenarioResult where
  name : String
  stock_change : ℝ
  vol_change : ℝ
  pnl : ℝ
  pnl_pct : ℝ
deriving Inhabited

/-- The result row `run` builds for one scenario. -/
def scenarioResult (e : ScenarioEngine) (s : ScenarioSpec) : ScenarioResult :=
  let pnl := e.calculate_scenario_pnl s.stock_chg s.vol_chg s.days
  { name := s.name
    stock_change := s.stock_chg * 100
    vol_change := s.vol_chg * 100
    pnl := pnl
    pnl_pct := pnl / (e.market_price * 100 * e.num_contracts) * 100 }

/-- The `results` list built in `ScenarioEngine.run`. -/
def results (e : ScenarioEngine) : List ScenarioResult :=
  scenarioList.map (scenarioResult e)

/-- Stable insertion into an ascending-by-`pnl` list: the new element, which
comes from earlier in the original order, is placed before later elements
with an equal key. -/
def insertPnl (x : ScenarioResult) : List ScenarioResult → List ScenarioResult
  | [] => [x]
  | y :: ys => if x.pnl ≤ y.pnl then x :: y :: ys else y :: insertPnl x ys

/-- Stable ascending sort by `pnl`, modelling Python's stable
`sorted(results, key=lambda x: x['pnl'])` in `ScenarioEngine.run`. -/
def sortByPnl : List ScenarioResult → List ScenarioResult
  | [] => []
  | x :: xs => insertPnl x (sortByPnl xs)

/-- The record returned by `ScenarioEngine.run`. -/
structure RunResult where
  all : List ScenarioResult
  best : ScenarioResult
  worst : ScenarioResult

/-- `ScenarioEngine.run`: builds the 7 results, sorts them (stably) by
`pnl`, and reports `sorted_results[0]` as worst and `sorted_results[-1]`
as best. -/
def run (e : ScenarioEngine) : RunResult :=
  let rs := results e
  let sorted_results := sortByPnl rs
  { all := rs
    best := sorted_results.getLastD default
    worst := sorted_results.headI }

end Scenarios

namespace Volatility

/-- Arithmetic mean of a list (pandas `mean`). -/
def listMean (l : List ℝ) : ℝ := l.sum / l.length

/-- Sample standard deviation with `ddof = 1` (pandas `std` default):
`sqrt (Σ (x - mean)² / (n - 1))`. -/
def sampleStd (l : List ℝ) : ℝ :=
  Real.sqrt ((l.map (fun x => (x - listMean l) ^ 2)).sum / ((l.length : ℝ) - 1))

/-- `returns.rolling(window=w).std() * np.sqrt(252)` from
`src/volatility.py`.  A pandas NaN (fewer than `w` observations, i.e. the
first `w-1` positions) is modelled as `none`; position `i` holds the
annualized sample standard deviation of the trailing `w` returns. -/
def rollingVol (w : ℕ) (returns : List ℝ) : List (Option ℝ) :=
  (List.range returns.length).map fun i =>
    if i + 1 < w then none
    else some (sampleStd ((returns.take (i + 1)).drop (i + 1 - w)) * Real.sqrt 252)

/-- Count of elements strictly below `c` — the numerator of pandas
`(all_hv < current_hv).mean()`. -/
def countLt (c : ℝ) : List ℝ → ℕ
  | [] => 0
  | x :: xs => (if x < c then 1 else 0) + countLt c xs

/-- The record returned by `VolatilityAnalyzer._determine_regime`. -/
structure Regime where
  label : String
  percentile : ℝ

/-- `VolatilityAnalyzer._determine_regime`, lines 55-64 of
`src/volatility.py`: `all_hv` is the NaN-free rolling 21-day history and
`current_hv` the current value; `percentile = (all_hv < current_hv).mean() * 100`. -/
def determine_regime (all_hv : List ℝ) (current_hv : ℝ) : Regime :=
  let percentile : ℝ := (countLt current_hv all_hv : ℝ) / (all_hv.length : ℝ) * 100
  { label :=
      if percentile > 80 then "HIGH"
      else if percentile < 20 then "LOW"
      else "NORMAL"
    percentile := percentile }

/-- The regime computed by `VolatilityAnalyzer.analyze` from a return
series: the NaN-free rolling 21-day history with the current (last) value
as `current_hv`. -/
def analyzeRegime (returns : List ℝ) : Regime :=
  let all_hv := (rollingVol 21 returns).reduceOption
  determine_regime all_hv (all_hv.getLastD 0)

end Volatility

namespace DataLoader

/-- `Config.TARGET_OTM_PCT`. -/
def TARGET_OTM_PCT : ℝ := 10.0

/-- `Config.MIN_OTM_PCT`. -/
def MIN_OTM_PCT : ℝ := 5.0

/-- `Config.MAX_OTM_PCT`. -/
def MAX_OTM_PCT : ℝ := 20.0

/-- `Config.MIN_OPEN_INTEREST`. -/
def MIN_OPEN_INTEREST : ℝ := 100

/-- One row of an option-chain CSV (a `ContractQuote`). -/
structure Row where
  contractSymbol : String
  strike : ℝ
  bid : ℝ
  ask : ℝ
  lastPrice : ℝ
  openInterest : ℝ
  volume : ℝ
  impliedVolatility : ℝ

/-- A chain row together with its computed `pct_otm` column. -/
structure OtmRow where
  row : Row
  pct_otm : ℝ

/-- The `otm` frame built by `DataLoader.select_option`: calls with
`strike > current_price`, with `pct_otm = (strike - price)/price * 100`. -/
def callOtm (chain : List Row) (current_price : ℝ) : List OtmRow :=
  (chain.filter (fun q => q.strike > current_price)).map
    (fun q => ⟨q, (q.strike - current_price) / current_price * 100⟩)

/-- The `spread_pct` column: `(ask - bid) / lastPrice * 100`. -/
def spread_pct (q : OtmRow) : ℝ := (q.row.ask - q.row.bid) / q.row.lastPrice * 100

/-- The `score` column of `_filter_and_score`:
`-|pct_otm - target| * 2 + log1p(openInterest) * 1.5 - spread_pct * 0.5`. -/
def score (q : OtmRow) : ℝ :=
  -|q.pct_otm - TARGET_OTM_PCT| * 2 + Real.log (1 + q.row.openInterest) * 1.5 -
    spread_pct q * 0.5

/-- The strict filter tier of `_filter_and_score`:
`MIN_OTM_PCT ≤ pct_otm ≤ MAX_OTM_PCT` and `openInterest > MIN_OPEN_INTEREST`. -/
def strictTier (otm : List OtmRow) : List OtmRow :=
  otm.filter (fun q =>
    q.pct_otm ≥ MIN_OTM_PCT ∧ q.pct_otm ≤ MAX_OTM_PCT ∧
      q.row.openInterest > MIN_OPEN_INTEREST)

/-- The relaxed filter tier: `openInterest > 50`, no OTM bound. -/
def relaxedTier (otm : List OtmRow) : List OtmRow :=
  otm.filter (fun q => q.row.openInterest > 50)

/-- pandas `idxmax` over the `score` column: the first row attaining the
maximal score (the accumulator is replaced only on a strictly greater
score). -/
def argmaxScore : OtmRow → List OtmRow → OtmRow
  | x, [] => x
  | x, y :: ys => argmaxScore (if score y > score x then y else x) ys

/-- `DataLoader._filter_and_score`: strict tier, relaxed tier if the strict
one is empty, `None` if both are empty, otherwise the first score-maximal
row (the returned record is built from that row). -/
def filter_and_score (otm : List OtmRow) : Option OtmRow :=
  let filtered := strictTier otm
  let filtered := if filtered.isEmpty then relaxedTier otm else filtered
  match filtered with
  | [] => none
  | x :: xs => some (argmaxScore x xs)

/-- `DataLoader.select_option`. -/
def select_option (chain : List Row) (current_price : ℝ) : Option OtmRow :=
  filter_and_score (callOtm chain current_price)

end DataLoader

open Scenarios in
/-- C7: for every scenario in the fixed 7-entry set and every starting
state with `S>0` and `K>0`, the shocked inputs satisfy
`new_sigma ≥ 0.05`, `new_T ≥ 0.001` and `new_S > 0` (every
`stock_chg ≥ -0.15`), so the log argument is positive, the square root
argument is positive, and the `d1` denominator is nonzero: the
degenerate-input branch is unreachable. -/
theorem C7_shocked_inputs_safe (e : ScenarioEngine) (hS : 0 < e.S) (hK : 0 < e.K) :
    ∀ s ∈ scenarioList,
      0.05 ≤ e.newSigma s.vol_chg ∧
      0.001 ≤ e.newT s.days ∧
      0 < e.newS s.stock_chg ∧
      0 < e.newS s.stock_chg / e.K ∧
      0 < Real.sqrt (e.newT s.days) ∧
      e.newSigma s.vol_chg * Real.sqrt (e.newT s.days) ≠ 0 := by
  have key : ∀ c, -0.15 ≤ c → ∀ v d : ℝ,
      0.05 ≤ e.newSigma v ∧ 0.001 ≤ e.newT d ∧ 0 < e.newS c ∧
      0 < e.newS c / e.K ∧ 0 < Real.sqrt (e.newT d) ∧
      e.newSigma v * Real.sqrt (e.newT d) ≠ 0 := by
    intro c hc v d
    have hsig : (0.05 : ℝ) ≤ e.newSigma v := le_max_right _ _
    have hT : (0.001 : ℝ) ≤ e.newT d := le_max_right _ _
    have hnewS : 0 < e.newS c := by
      have : (0 : ℝ) < 1 + c := by norm_num at hc ⊢; linarith
      exact mul_pos hS this
    have hsqrt : 0 < Real.sqrt (e.newT d) :=
      Real.sqrt_pos.mpr (lt_of_lt_of_le (by norm_num) hT)
    refine ⟨hsig, hT, hnewS, div_pos hnewS hK, hsqrt, ?_⟩
    exact ne_of_gt (mul_pos (lt_of_lt_of_le (by norm_num) hsig) hsqrt)
  intro s hs
  fin_cases hs <;> exact key _ (by norm_num) _ _

open Scenarios in
/-- Witness for C7: the `Flat` scenario at a concrete engine state. -/
theorem C7_shocked_inputs_safe_witness :
    0.05 ≤ ScenarioEngine.newSigma ⟨100, 90, 0.1, 0.05, 0.3, 5, 10⟩ 0.0 ∧
    0.001 ≤ ScenarioEngine.newT ⟨100, 90, 0.1, 0.05, 0.3, 5, 10⟩ 7 ∧
    0 < ScenarioEngine.newS ⟨100, 90, 0.1, 0.05, 0.3, 5, 10⟩ 0.0 ∧
    0 < ScenarioEngine.newS ⟨100, 90, 0.1, 0.05, 0.3, 5, 10⟩ 0.0 / (90 : ℝ) ∧
    0 < Real.sqrt (ScenarioEngine.newT ⟨100, 90, 0.1, 0.05, 0.3, 5, 10⟩ 7) ∧
    ScenarioEngine.newSigma ⟨100, 90, 0.1, 0.05, 0.3, 5, 10⟩ 0.0 *
      Real.sqrt (ScenarioEngine.newT ⟨100, 90, 0.1, 0.05, 0.3, 5, 10⟩ 7) ≠ 0 :=
  C7_shocked_inputs_safe ⟨100, 90, 0.1, 0.05, 0.3, 5, 10⟩ (by norm_num) (by norm_num)
    ⟨"Flat", 0.0, 0.0, 7⟩ (by simp [scenarioList])

open Volatility in
/-- C6: for every return series and every window size `w ∈ {21, 63, 252}`,
the rolling-volatility history holds no value at the first `w-1` positions:
those positions are the undefined marker (`none`, modelling pandas NaN),
not a number and in particular not zero. -/
theorem C6_rolling_head_undefined (returns : List ℝ) (w : ℕ)
    (hw : w = 21 ∨ w = 63 ∨ w = 252) (i : ℕ) (hi : i < w - 1)
    (hlen : i < returns.length) :
    (rollingVol w returns)[i]? = some none := by
  have hiw : i + 1 < w := by omega
  simp [rollingVol, List.getElem?_map, List.getElem?_range, hlen, hiw]

open Volatility in
/-- Witness for C6: position 3 of a 25-point series with window 21 is the
undefined marker. -/
theorem C6_rolling_head_undefined_witness :
    (rollingVol 21 (List.replicate 25 (0 : ℝ)))[3]? = some none :=
  C6_rolling_head_undefined (List.replicate 25 (0 : ℝ)) 21 (Or.inl rfl) 3
    (by norm_num) (by simp)

namespace Volatility

theorem countLt_append (c : ℝ) (l1 l2 : List ℝ) :
    countLt c (l1 ++ l2) = countLt c l1 + countLt c l2 := by
  induction l1 with
  | nil => simp [countLt]
  | cons x xs ih => simp [countLt, ih]; omega

theorem countLt_eq_length (c : ℝ) (l : List ℝ) (h : ∀ x ∈ l, x < c) :
    countLt c l = l.length := by
  induction l with
  | nil => simp [countLt]
  | cons x xs ih =>
    have hx : x < c := h x (by simp)
    simp [countLt, if_pos hx, ih (fun y hy => h y (by simp [hy]))]
    omega

end Volatility

open Volatility in
/-- C5 (amended): the regime percentile is 100 times the fraction of
history values strictly below the current (last) value; labels are `HIGH`
iff the percentile exceeds 80, `LOW` iff it is below 20, `NORMAL`
otherwise; and when the current value strictly exceeds every earlier value
the percentile is `100·(n-1)/n`.  (The original claim asserted the
`100·(n-1)/n` form whenever the current value merely equals the maximum,
which fails when the maximum is duplicated.) -/
theorem C5_regime_spec (all_hv : List ℝ) (current : ℝ) (h : all_hv ≠ [])
    (hcur : current = all_hv.getLast h) :
    (determine_regime all_hv current).percentile =
      (countLt current all_hv : ℝ) / (all_hv.length : ℝ) * 100 ∧
    ((determine_regime all_hv current).label = "HIGH" ↔
      80 < (determine_regime all_hv current).percentile) ∧
    ((determine_regime all_hv current).label = "LOW" ↔
      (determine_regime all_hv current).percentile < 20) ∧
    ((determine_regime all_hv current).label = "NORMAL" ↔
      20 ≤ (determine_regime all_hv current).percentile ∧
        (determine_regime all_hv current).percentile ≤ 80) ∧
    ((∀ x ∈ all_hv.dropLast, x < current) →
      (determine_regime all_hv current).percentile =
        100 * ((all_hv.length : ℝ) - 1) / (all_hv.length : ℝ)) := by
  have hlab : (determine_regime all_hv current).label =
      if (determine_regime all_hv current).percentile > 80 then "HIGH"
      else if (determine_regime all_hv current).percentile < 20 then "LOW"
      else "NORMAL" := rfl
  refine ⟨rfl, ?_, ?_, ?_, ?_⟩
  · rw [hlab]; split_ifs with h1 h2
    · exact ⟨fun _ => h1, fun _ => rfl⟩
    · exact ⟨fun hh => absurd hh (by decide), fun hh => by linarith⟩
    · exact ⟨fun hh => absurd hh (by decide), fun hh => by linarith⟩
  · rw [hlab]; split_ifs with h1 h2
    · exact ⟨fun hh => absurd hh (by decide), fun hh => by linarith⟩
    · exact ⟨fun _ => h2, fun _ => rfl⟩
    · exact ⟨fun hh => absurd hh (by decide), fun hh => by linarith⟩
  · rw [hlab]; split_ifs with h1 h2
    · exact ⟨fun hh => absurd hh (by decide), fun hh => by linarith [hh.2]⟩
    · exact ⟨fun hh => absurd hh (by decide), fun hh => by linarith [hh.1]⟩
    · exact ⟨fun _ => ⟨by linarith, by linarith⟩, fun _ => rfl⟩
  · intro hstrict
    have hsplit : all_hv = all_hv.dropLast ++ [all_hv.getLast h] :=
      (List.dropLast_append_getLast h).symm
    have hcount : countLt current all_hv = all_hv.length - 1 := by
      conv_lhs => rw [hsplit]
      rw [countLt_append, countLt_eq_length current _ hstrict]
      have : countLt current [all_hv.getLast h] = 0 := by
        simp [countLt, hcur]
      rw [this, List.length_dropLast]
      omega
    have hn : 1 ≤ all_hv.length := List.length_pos.mpr h
    show (countLt current all_hv : ℝ) / (all_hv.length : ℝ) * 100 = _
    rw [hcount]
    rw [Nat.cast_sub hn]
    ring

open Volatility in
/-- Witness for C5 at the history `[1, 2, 3]` (current value `3`). -/
theorem C5_regime_spec_witness :
    (determine_regime [1, 2, 3] 3).percentile =
      100 * ((([1, 2, 3] : List ℝ).length : ℝ) - 1) / (([1, 2, 3] : List ℝ).length : ℝ) :=
  (C5_regime_spec [1, 2, 3] 3 (by simp) (by simp)).2.2.2.2
    (by intro x hx; simp at hx; rcases hx with h | h <;> norm_num [h])

open Volatility in
/-- Counterexample to C5 as stated: in the history `[1, 1]` the current
(last) value equals the maximum with `n = 2` defined points, yet the
percentile is `0`, not `100·(n-1)/n = 50` — a duplicated maximum defeats
the strictly-less count. -/
theorem C5_percentile_counterexample :
    (([1, 1] : List ℝ) ≠ []) ∧
    (([1, 1] : List ℝ).getLast (by simp) = 1) ∧
    (∀ x ∈ ([1, 1] : List ℝ), x ≤ 1) ∧
    (determine_regime [1, 1] 1).percentile = 0 ∧
    100 * (((([1, 1] : List ℝ).length) : ℝ) - 1) / ((([1, 1] : List ℝ).length) : ℝ) = 50 ∧
    (0 : ℝ) ≠ 50 := by
  refine ⟨by simp, by simp, ?_, ?_, by norm_num, by norm_num⟩
  · intro x hx
    rcases List.mem_cons.mp hx with h | h
    · exact le_of_eq h
    · simp at h; exact le_of_eq h
  · show (countLt 1 [1, 1] : ℝ) / ((([1, 1] : List ℝ).length : ℕ) : ℝ) * 100 = 0
    have : countLt 1 [1, 1] = 0 := by simp [countLt]
    rw [this]
    norm_num

namespace DataLoader

/-- Spec-side description of pandas `idxmax`: `b` occurs in `l`, every row
before that occurrence scores strictly less, every row after scores at
most `score b` — i.e. `b` is the first score-maximal row. -/
def firstMaxOf (l : List OtmRow) (b : OtmRow) : Prop :=
  ∃ l1 l2, l = l1 ++ b :: l2 ∧ (∀ z ∈ l1, score z < score b) ∧
    ∀ z ∈ l2, score z ≤ score b

theorem firstMaxOf_max {l : List OtmRow} {b : OtmRow} (hf : firstMaxOf l b) :
    ∀ z ∈ l, score z ≤ score b := by
  obtain ⟨l1, l2, hsplit, hpre, hpost⟩ := hf
  intro z hz
  rw [hsplit] at hz
  rcases List.mem_append.mp hz with h | h
  · exact le_of_lt (hpre z h)
  · rcases List.mem_cons.mp h with h | h
    · exact le_of_eq (congrArg score h)
    · exact hpost z h

theorem argmaxScore_firstMaxOf : ∀ (l : List OtmRow) (x : OtmRow),
    firstMaxOf (x :: l) (argmaxScore x l) := by
  intro l
  induction l with
  | nil =>
    intro x
    exact ⟨[], [], rfl, by simp, by simp⟩
  | cons y ys ih =>
    intro x
    show firstMaxOf (x :: y :: ys) (argmaxScore (if score y > score x then y else x) ys)
    split_ifs with hxy
    · obtain ⟨l1, l2, hsplit, hpre, hpost⟩ := ih y
      have hmax : ∀ z ∈ y :: ys, score z ≤ score (argmaxScore y ys) :=
        firstMaxOf_max ⟨l1, l2, hsplit, hpre, hpost⟩
      refine ⟨x :: l1, l2, by rw [List.cons_append, ← hsplit], ?_, hpost⟩
      intro z hz
      rcases List.mem_cons.mp hz with h | h
      · have hy : score y ≤ score (argmaxScore y ys) := hmax y (by simp)
        calc score z = score x := congrArg score h
          _ < score y := hxy
          _ ≤ _ := hy
      · exact hpre z h
    · obtain ⟨l1, l2, hsplit, hpre, hpost⟩ := ih x
      cases l1 with
      | nil =>
        simp only [List.nil_append] at hsplit
        have hb : argmaxScore x ys = x := (List.cons.injEq _ _ _ _).mp hsplit.symm |>.1
        have hys : ys = l2 := (List.cons.injEq _ _ _ _).mp hsplit.symm |>.2.symm
        refine ⟨[], y :: ys, by simp [hb], by simp, ?_⟩
        intro z hz
        rcases List.mem_cons.mp hz with h | h
        · rw [hb]
          calc score z = score y := congrArg score h
            _ ≤ score x := le_of_not_lt hxy
        · rw [hys] at h
          exact hpost z h
      | cons a l1' =>
        have hax : a = x := ((List.cons.injEq _ _ _ _).mp hsplit).1.symm
        have hys : ys = l1' ++ argmaxScore x ys :: l2 :=
          ((List.cons.injEq _ _ _ _).mp hsplit).2
        have hxlt : score x < score (argmaxScore x ys) := by
          have := hpre a (by simp)
          rwa [hax] at this
        refine ⟨x :: y :: l1', l2,
          by rw [List.cons_append, List.cons_append, ← hys], ?_, hpost⟩
        intro z hz
        rcases List.mem_cons.mp hz with h | h
        · rw [congrArg score h]; exact hxlt
        · rcases List.mem_cons.mp h with h | h
          · calc score z = score y := congrArg score h
              _ ≤ score x := le_of_not_lt hxy
              _ < _ := hxlt
          · exact hpre z (hax ▸ List.mem_cons.mpr (Or.inr h))

end DataLoader

open DataLoader in
/-- C8: contract selection returns `none` exactly when both filter tiers
are empty (the no-match case is a returned sentinel, not an exception);
otherwise it returns the first score-maximal row of the first non-empty
tier. -/
theorem C8_selection_spec (chain : List Row) (current_price : ℝ) :
    (select_option chain current_price = none ↔
      strictTier (callOtm chain current_price) = [] ∧
        relaxedTier (callOtm chain current_price) = []) ∧
    (strictTier (callOtm chain current_price) ≠ [] →
      ∃ b, select_option chain current_price = some b ∧
        firstMaxOf (strictTier (callOtm chain current_price)) b) ∧
    (strictTier (callOtm chain current_price) = [] →
      relaxedTier (callOtm chain current_price) ≠ [] →
        ∃ b, select_option chain current_price = some b ∧
          firstMaxOf (relaxedTier (callOtm chain current_price)) b) := by
  have hsel : select_option chain current_price =
      (match (if (strictTier (callOtm chain current_price)).isEmpty then
          relaxedTier (callOtm chain current_price)
        else strictTier (callOtm chain current_price)) with
      | [] => none
      | x :: xs => some (argmaxScore x xs)) := rfl
  refine ⟨?_, ?_, ?_⟩
  · rw [hsel]
    constructor
    · intro hnone
      split_ifs at hnone with hemp
      · refine ⟨List.isEmpty_iff.mp hemp, ?_⟩
        by_contra hne
        obtain ⟨a, l, hal⟩ := List.exists_cons_of_ne_nil hne
        rw [hal] at hnone
        exact absurd hnone (by simp)
      · exfalso
        obtain ⟨a, l, hal⟩ :=
          List.exists_cons_of_ne_nil (fun hh => hemp (List.isEmpty_iff.mpr hh))
        rw [hal] at hnone
        exact absurd hnone (by simp)
    · rintro ⟨h1, h2⟩
      rw [if_pos (List.isEmpty_iff.mpr h1), h2]
  · intro hne
    cases hstr : strictTier (callOtm chain current_price) with
    | nil => exact absurd hstr hne
    | cons x xs =>
      refine ⟨argmaxScore x xs, ?_, argmaxScore_firstMaxOf xs x⟩
      rw [hsel, if_neg (by simp [hstr]), hstr]
  · intro hstr hne
    cases hrel : relaxedTier (callOtm chain current_price) with
    | nil => exact absurd hrel hne
    | cons x xs =>
      refine ⟨argmaxScore x xs, ?_, argmaxScore_firstMaxOf xs x⟩
      rw [hsel, if_pos (List.isEmpty_iff.mpr hstr), hrel]

namespace Scenarios

/-- Spec-side: the first element of minimal `pnl` (ties keep the earlier
element) of `x :: l`. -/
def argminFirst : ScenarioResult → List ScenarioResult → ScenarioResult
  | x, [] => x
  | x, y :: ys => if x.pnl ≤ (argminFirst y ys).pnl then x else argminFirst y ys

/-- Spec-side: the last element of maximal `pnl` (ties keep the later
element) of `x :: l`. -/
def argmaxLast : ScenarioResult → List ScenarioResult → ScenarioResult
  | x, [] => x
  | x, y :: ys => if (argmaxLast y ys).pnl < x.pnl then x else argmaxLast y ys

/-- Claim-side: the first element of maximal `pnl` (ties keep the earlier
element) of `x :: l`. -/
def argmaxFirst : ScenarioResult → List ScenarioResult → ScenarioResult
  | x, [] => x
  | x, y :: ys => if (argmaxFirst y ys).pnl ≤ x.pnl then x else argmaxFirst y ys

theorem insertPnl_ne_nil (x : ScenarioResult) (l : List ScenarioResult) :
    insertPnl x l ≠ [] := by
  cases l with
  | nil => simp [insertPnl]
  | cons y ys => simp only [insertPnl]; split_ifs <;> simp

theorem headI_insertPnl_cons (x a : ScenarioResult) (t : List ScenarioResult) :
    (insertPnl x (a :: t)).headI = if x.pnl ≤ a.pnl then x else a := by
  simp only [insertPnl]; split_ifs <;> simp

theorem sortByPnl_headI : ∀ (l : List ScenarioResult) (x : ScenarioResult),
    (sortByPnl (x :: l)).headI = argminFirst x l := by
  intro l
  induction l with
  | nil => intro x; rfl
  | cons y ys ih =>
    intro x
    obtain ⟨a, t, hat⟩ := List.exists_cons_of_ne_nil (insertPnl_ne_nil y (sortByPnl ys))
    show (insertPnl x (insertPnl y (sortByPnl ys))).headI = argminFirst x (y :: ys)
    rw [hat, headI_insertPnl_cons]
    have ha : a = argminFirst y ys := by
      have h := ih y
      rw [show sortByPnl (y :: ys) = insertPnl y (sortByPnl ys) from rfl, hat] at h
      simpa using h
    rw [ha]
    rfl

/-- `pnl`-sortedness as a `Chain'`. -/
def PnlSorted (l : List ScenarioResult) : Prop :=
  l.Chain' (fun a b => a.pnl ≤ b.pnl)

theorem insertPnl_sorted {l : List ScenarioResult} (hl : PnlSorted l)
    (x : ScenarioResult) : PnlSorted (insertPnl x l) := by
  induction l with
  | nil => simp [insertPnl, PnlSorted]
  | cons a t ih =>
    simp only [insertPnl]
    split_ifs with hxa
    · exact List.Chain'.cons hxa hl
    · have ht : PnlSorted t := (List.chain'_cons'.mp hl).2
      refine List.chain'_cons'.mpr ⟨?_, ih ht⟩
      intro z hz
      cases t with
      | nil =>
        simp [insertPnl] at hz
        rw [← hz]
        exact le_of_lt (lt_of_not_le hxa)
      | cons b t' =>
        simp only [insertPnl] at hz
        split_ifs at hz with hxb
        · simp at hz
          rw [← hz]
          exact le_of_lt (lt_of_not_le hxa)
        · simp at hz
          rw [← hz]
          exact (List.chain'_cons.mp hl).1

theorem sortByPnl_sorted : ∀ l : List ScenarioResult, PnlSorted (sortByPnl l) := by
  intro l
  induction l with
  | nil => simp [sortByPnl, PnlSorted]
  | cons x xs ih => exact insertPnl_sorted ih x

theorem chain_head_le_getLastD {a : ScenarioResult} {t : List ScenarioResult}
    (h : PnlSorted (a :: t)) : a.pnl ≤ ((a :: t).getLastD default).pnl := by
  induction t generalizing a with
  | nil => simp
  | cons b t' ih =>
    have hab : a.pnl ≤ b.pnl := (List.chain'_cons.mp h).1
    have := ih (a := b) (List.chain'_cons.mp h).2
    calc a.pnl ≤ b.pnl := hab
      _ ≤ _ := this

theorem getLastD_ne_nil_irrel {l : List ScenarioResult} (h : l ≠ [])
    (d d' : ScenarioResult) : l.getLastD d = l.getLastD d' := by
  cases l with
  | nil => exact absurd rfl h
  | cons a t => rw [List.getLastD_cons, List.getLastD_cons]

theorem getLastD_insertPnl {l : List ScenarioResult} (hl : PnlSorted l)
    (x : ScenarioResult) (hne : l ≠ []) :
    (insertPnl x l).getLastD default =
      if (l.getLastD default).pnl < x.pnl then x else l.getLastD default := by
  induction l with
  | nil => exact absurd rfl hne
  | cons a t ih =>
    simp only [insertPnl]
    split_ifs with hxa hlast hlast
    · exact absurd hxa (not_le_of_lt (lt_of_le_of_lt (chain_head_le_getLastD hl) hlast))
    · rfl
    · cases t with
      | nil =>
        simp only [List.getLastD_cons] at hlast ⊢
        simp [insertPnl]
      | cons b t' =>
        have ht : PnlSorted (b :: t') := (List.chain'_cons.mp hl).2
        have hrec := ih ht (by simp)
        rw [List.getLastD_cons,
          getLastD_ne_nil_irrel (insertPnl_ne_nil x (b :: t')) a default, hrec]
        rw [List.getLastD_cons,
          getLastD_ne_nil_irrel (List.cons_ne_nil b t') a default] at hlast
        rw [if_pos hlast]
    · cases t with
      | nil =>
        simp only [List.getLastD_cons] at hlast
        exact absurd (lt_of_not_le hxa) hlast
      | cons b t' =>
        have ht : PnlSorted (b :: t') := (List.chain'_cons.mp hl).2
        have hrec := ih ht (by simp)
        rw [List.getLastD_cons,
          getLastD_ne_nil_irrel (insertPnl_ne_nil x (b :: t')) a default, hrec]
        rw [List.getLastD_cons,
          getLastD_ne_nil_irrel (List.cons_ne_nil b t') a default] at hlast
        rw [if_neg hlast]
        rw [List.getLastD_cons, List.getLastD_cons, List.getLastD_cons]

theorem sortByPnl_getLastD : ∀ (l : List ScenarioResult) (x : ScenarioResult),
    (sortByPnl (x :: l)).getLastD default = argmaxLast x l := by
  intro l
  induction l with
  | nil => intro x; rfl
  | cons y ys ih =>
    intro x
    show (insertPnl x (sortByPnl (y :: ys))).getLastD default = argmaxLast x (y :: ys)
    rw [getLastD_insertPnl (sortByPnl_sorted (y :: ys)) x
      (insertPnl_ne_nil y (sortByPnl ys)), ih y]
    rfl

end Scenarios

namespace Scenarios

theorem sortByPnl_headI_of_ne_nil {l : List ScenarioResult} (h : l ≠ []) :
    (sortByPnl l).headI = argminFirst l.headI l.tail := by
  cases l with
  | nil => exact absurd rfl h
  | cons x xs => exact sortByPnl_headI xs x

theorem sortByPnl_getLastD_of_ne_nil {l : List ScenarioResult} (h : l ≠ []) :
    (sortByPnl l).getLastD default = argmaxLast l.headI l.tail := by
  cases l with
  | nil => exact absurd rfl h
  | cons x xs => exact sortByPnl_getLastD xs x

theorem argminFirst_le : ∀ (l : List ScenarioResult) (x : ScenarioResult),
    ∀ z ∈ x :: l, (argminFirst x l).pnl ≤ z.pnl := by
  intro l
  induction l with
  | nil => intro x z hz; simp at hz; simp [argminFirst, hz]
  | cons y ys ih =>
    intro x z hz
    show (if x.pnl ≤ (argminFirst y ys).pnl then x else argminFirst y ys).pnl ≤ z.pnl
    rcases List.mem_cons.mp hz with h | h
    · subst h
      split_ifs with hc
      · exact le_refl _
      · exact le_of_lt (lt_of_not_le hc)
    · have hy := ih y z h
      split_ifs with hc
      · exact le_trans hc hy
      · exact hy

theorem argmaxLast_ge : ∀ (l : List ScenarioResult) (x : ScenarioResult),
    ∀ z ∈ x :: l, z.pnl ≤ (argmaxLast x l).pnl := by
  intro l
  induction l with
  | nil => intro x z hz; simp at hz; simp [argmaxLast, hz]
  | cons y ys ih =>
    intro x z hz
    show z.pnl ≤ (if (argmaxLast y ys).pnl < x.pnl then x else argmaxLast y ys).pnl
    rcases List.mem_cons.mp hz with h | h
    · subst h
      split_ifs with hc
      · exact le_refl _
      · exact le_of_not_lt hc
    · have hy := ih y z h
      split_ifs with hc
      · exact le_trans hy (le_of_lt hc)
      · exact hy

theorem argminFirst_mem : ∀ (l : List ScenarioResult) (x : ScenarioResult),
    argminFirst x l ∈ x :: l := by
  intro l
  induction l with
  | nil => intro x; simp [argminFirst]
  | cons y ys ih =>
    intro x
    show (if x.pnl ≤ (argminFirst y ys).pnl then x else argminFirst y ys) ∈ _
    split_ifs with hc
    · simp
    · exact List.mem_cons.mpr (Or.inr (ih y))

theorem argmaxLast_mem : ∀ (l : List ScenarioResult) (x : ScenarioResult),
    argmaxLast x l ∈ x :: l := by
  intro l
  induction l with
  | nil => intro x; simp [argmaxLast]
  | cons y ys ih =>
    intro x
    show (if (argmaxLast y ys).pnl < x.pnl then x else argmaxLast y ys) ∈ _
    split_ifs with hc
    · simp
    · exact List.mem_cons.mpr (Or.inr (ih y))

end Scenarios

open Scenarios in
/-- C3 (amended): `run` reports as `worst` the first scenario (in the fixed
list order) attaining the minimal pnl, and as `best` the *last* scenario
attaining the maximal pnl: under the stable ascending sort,
`sorted_results[0]` is the first minimum but `sorted_results[-1]` is the
last maximum, so ties for the maximum go to the later entry, not the first.
-/
theorem C3_best_worst (e : ScenarioEngine) :
    (run e).all = results e ∧
    (run e).worst = argminFirst (results e).headI (results e).tail ∧
    (run e).best = argmaxLast (results e).headI (results e).tail := by
  have hne : results e ≠ [] := by simp [results, scenarioList]
  exact ⟨rfl, sortByPnl_headI_of_ne_nil hne, sortByPnl_getLastD_of_ne_nil hne⟩

namespace BlackScholes

/-- The (unnormalised) erf integral `∫ t in 0..z, exp (-t²)`. -/
def erfInt (z : ℝ) : ℝ := ∫ t in (0:ℝ)..z, Real.exp (-t ^ 2)

theorem continuous_expNegSq : Continuous fun t : ℝ => Real.exp (-t ^ 2) :=
  Real.continuous_exp.comp (continuous_pow 2).neg

theorem expNegSq_pos (t : ℝ) : 0 < Real.exp (-t ^ 2) := Real.exp_pos _

theorem intervalIntegrable_expNegSq (a b : ℝ) :
    IntervalIntegrable (fun t : ℝ => Real.exp (-t ^ 2)) MeasureTheory.volume a b :=
  continuous_expNegSq.intervalIntegrable a b

theorem erfInt_zero : erfInt 0 = 0 := intervalIntegral.integral_same

theorem erfInt_hasDerivAt (z : ℝ) : HasDerivAt erfInt (Real.exp (-z ^ 2)) z :=
  (continuous_expNegSq.integral_hasStrictDerivAt 0 z).hasDerivAt

theorem erfInt_neg (z : ℝ) : erfInt (-z) = -erfInt z := by
  have h := intervalIntegral.integral_comp_neg (a := (0:ℝ)) (b := z)
    (fun t : ℝ => Real.exp (-t ^ 2))
  have h2 : (fun x : ℝ => Real.exp (-(-x) ^ 2)) = fun x : ℝ => Real.exp (-x ^ 2) := by
    funext x
    rw [neg_sq]
  rw [h2, neg_zero] at h
  calc erfInt (-z) = ∫ x in (0:ℝ)..(-z), Real.exp (-x ^ 2) := rfl
    _ = -∫ x in (-z)..(0:ℝ), Real.exp (-x ^ 2) := intervalIntegral.integral_symm (-z) 0
    _ = -∫ x in (0:ℝ)..z, Real.exp (-x ^ 2) := by rw [← h]
    _ = -erfInt z := rfl

theorem erfInt_mono : Monotone erfInt := by
  intro a b hab
  have hsplit := intervalIntegral.integral_add_adjacent_intervals
    (intervalIntegrable_expNegSq 0 a) (intervalIntegrable_expNegSq a b)
  have hnn : 0 ≤ ∫ t in a..b, Real.exp (-t ^ 2) :=
    intervalIntegral.integral_nonneg hab (fun u _ => (expNegSq_pos u).le)
  show erfInt a ≤ erfInt b
  rw [erfInt, erfInt, ← hsplit]
  linarith

theorem erfInt_strictMono : StrictMono erfInt := by
  intro a b hab
  have hsplit := intervalIntegral.integral_add_adjacent_intervals
    (intervalIntegrable_expNegSq 0 a) (intervalIntegrable_expNegSq a b)
  have hpos : 0 < ∫ t in a..b, Real.exp (-t ^ 2) :=
    intervalIntegral.intervalIntegral_pos_of_pos
      (intervalIntegrable_expNegSq a b) (fun u => expNegSq_pos u) hab
  show erfInt a < erfInt b
  rw [erfInt, erfInt, ← hsplit]
  linarith

theorem erfInt_lt (z : ℝ) : erfInt z < Real.sqrt π / 2 := by
  have hIoi : ∫ t in Set.Ioi (0:ℝ), Real.exp (-t ^ 2) = Real.sqrt π / 2 := by
    have h := integral_gaussian_Ioi 1
    have h2 : (∫ t in Set.Ioi (0:ℝ), Real.exp (-(1:ℝ) * t ^ 2)) =
        ∫ t in Set.Ioi (0:ℝ), Real.exp (-t ^ 2) := by
      congr 1
      ext t
      ring_nf
    rw [h2] at h
    rw [h]
    norm_num
  have hInt : MeasureTheory.IntegrableOn
      (fun t : ℝ => Real.exp (-t ^ 2)) (Set.Ioi (0:ℝ)) := by
    have h : MeasureTheory.Integrable fun t : ℝ => Real.exp (-(1:ℝ) * t ^ 2) :=
      integrable_exp_neg_mul_sq one_pos
    have h' : MeasureTheory.Integrable fun t : ℝ => Real.exp (-t ^ 2) := by
      simpa using h
    exact h'.integrableOn
  have hle : ∀ w : ℝ, erfInt w ≤ Real.sqrt π / 2 := by
    intro w
    rcases le_or_lt 0 w with hw | hw
    · have hIoc : erfInt w = ∫ t in Set.Ioc (0:ℝ) w, Real.exp (-t ^ 2) := by
        rw [erfInt, intervalIntegral.integral_of_le hw]
      rw [hIoc, ← hIoi]
      refine MeasureTheory.setIntegral_mono_set hInt ?_ ?_
      · exact MeasureTheory.ae_of_all _ fun t => (expNegSq_pos t).le
      · exact MeasureTheory.ae_of_all _ Set.Ioc_subset_Ioi_self
    · have h1 : erfInt w ≤ erfInt 0 := erfInt_mono hw.le
      rw [erfInt_zero] at h1
      have h2 : 0 ≤ Real.sqrt π / 2 := by positivity
      linarith
  exact lt_of_lt_of_le (erfInt_strictMono (lt_add_one z)) (hle (z + 1))

theorem sqrt_pi_pos : 0 < Real.sqrt π := Real.sqrt_pos.mpr Real.pi_pos

end BlackScholes

namespace BlackScholes

theorem sqrt_two_pos : 0 < Real.sqrt 2 := Real.sqrt_pos.mpr (by norm_num)

theorem norm_cdf_eq_half_add (x : ℝ) :
    norm_cdf x = 1 / 2 + erfInt (x / Real.sqrt 2) / Real.sqrt π := by
  have h20 : (2.0 : ℝ) = 2 := by norm_num
  rw [norm_cdf, erf, h20]
  have hpi : Real.sqrt π ≠ 0 := ne_of_gt sqrt_pi_pos
  show 0.5 * (1.0 + 2 / Real.sqrt π * erfInt (x / Real.sqrt 2)) = _
  field_simp
  ring

theorem norm_cdf_neg (x : ℝ) : norm_cdf (-x) = 1 - norm_cdf x := by
  rw [norm_cdf_eq_half_add, norm_cdf_eq_half_add, neg_div, erfInt_neg, neg_div]
  ring

theorem norm_cdf_pos (x : ℝ) : 0 < norm_cdf x := by
  rw [norm_cdf_eq_half_add]
  have h : -(Real.sqrt π / 2) < erfInt (x / Real.sqrt 2) := by
    have h' := erfInt_lt (-(x / Real.sqrt 2))
    rw [erfInt_neg] at h'
    linarith
  have hpi := sqrt_pi_pos
  have h2 : -(Real.sqrt π / 2) / Real.sqrt π < erfInt (x / Real.sqrt 2) / Real.sqrt π :=
    div_lt_div_of_pos_right h hpi
  have h3 : -(Real.sqrt π / 2) / Real.sqrt π = -(1 / 2) := by
    field_simp
    ring
  linarith

theorem norm_cdf_nonneg (x : ℝ) : 0 ≤ norm_cdf x := (norm_cdf_pos x).le

theorem norm_cdf_lt_one (x : ℝ) : norm_cdf x < 1 := by
  rw [norm_cdf_eq_half_add]
  have h := erfInt_lt (x / Real.sqrt 2)
  have hpi := sqrt_pi_pos
  have h2 : erfInt (x / Real.sqrt 2) / Real.sqrt π < Real.sqrt π / 2 / Real.sqrt π :=
    div_lt_div_of_pos_right h hpi
  have h3 : Real.sqrt π / 2 / Real.sqrt π = 1 / 2 := by
    field_simp
    ring
  linarith

theorem norm_cdf_le_one (x : ℝ) : norm_cdf x ≤ 1 := (norm_cdf_lt_one x).le

theorem norm_cdf_mono : Monotone norm_cdf := by
  have hs : StrictMono norm_cdf := by
    intro a b hab
    rw [norm_cdf_eq_half_add, norm_cdf_eq_half_add]
    have h : erfInt (a / Real.sqrt 2) < erfInt (b / Real.sqrt 2) :=
      erfInt_strictMono (div_lt_div_of_pos_right hab sqrt_two_pos)
    have := div_lt_div_of_pos_right h sqrt_pi_pos
    linarith
  exact hs.monotone

theorem norm_pdf_eq (x : ℝ) : norm_pdf x = Real.exp (-x ^ 2 / 2) / Real.sqrt (2 * π) := by
  rw [norm_pdf]
  have h20 : (2.0 : ℝ) = 2 := by norm_num
  rw [h20]
  congr 1
  ring_nf

theorem norm_pdf_pos (x : ℝ) : 0 < norm_pdf x := by
  rw [norm_pdf_eq]
  have h2pi : 0 < Real.sqrt (2 * π) :=
    Real.sqrt_pos.mpr (by positivity)
  exact div_pos (Real.exp_pos _) h2pi

theorem norm_cdf_hasDerivAt (x : ℝ) : HasDerivAt norm_cdf (norm_pdf x) x := by
  have h1 : HasDerivAt (fun y : ℝ => y / Real.sqrt 2) (1 / Real.sqrt 2) x := by
    simpa using (hasDerivAt_id x).div_const (Real.sqrt 2)
  have h2 : HasDerivAt (fun y : ℝ => erfInt (y / Real.sqrt 2))
      (Real.exp (-(x / Real.sqrt 2) ^ 2) * (1 / Real.sqrt 2)) x :=
    (erfInt_hasDerivAt (x / Real.sqrt 2)).comp x h1
  have h3 : HasDerivAt (fun y : ℝ => 1 / 2 + erfInt (y / Real.sqrt 2) / Real.sqrt π)
      (Real.exp (-(x / Real.sqrt 2) ^ 2) * (1 / Real.sqrt 2) / Real.sqrt π) x :=
    (h2.div_const (Real.sqrt π)).const_add (1 / 2)
  have heq : (fun y : ℝ => 1 / 2 + erfInt (y / Real.sqrt 2) / Real.sqrt π) = norm_cdf := by
    funext y
    rw [norm_cdf_eq_half_add]
  rw [heq] at h3
  have hval : Real.exp (-(x / Real.sqrt 2) ^ 2) * (1 / Real.sqrt 2) / Real.sqrt π =
      norm_pdf x := by
    rw [norm_pdf_eq]
    have harg : -(x / Real.sqrt 2) ^ 2 = -x ^ 2 / 2 := by
      rw [div_pow, Real.sq_sqrt (by norm_num : (0:ℝ) ≤ 2)]
      ring
    rw [harg]
    rw [show Real.sqrt (2 * π) = Real.sqrt 2 * Real.sqrt π from
      Real.sqrt_mul (by norm_num) π]
    have h2 : Real.sqrt 2 ≠ 0 := ne_of_gt sqrt_two_pos
    have hpi : Real.sqrt π ≠ 0 := ne_of_gt sqrt_pi_pos
    field_simp
  rw [hval] at h3
  exact h3

end BlackScholes

open BlackScholes in
/-- C2: for matching `(S,K,T,r,σ)` with positive `S`, `K`, `T`, `σ`, the
call price minus the put price equals `S - K·exp(-r·T)` exactly in the
real-valued embedding (so certainly within the stated `1e-6` tolerance). -/
theorem C2_put_call_parity (p : OptionPricer) (sigma : ℝ)
    (hS : 0 < p.S) (hK : 0 < p.K) (hT : 0 < p.T) (hsig : 0 < sigma) :
    p.bs_call_price sigma - p.bs_put_price sigma =
      p.S - p.K * Real.exp (-p.r * p.T) := by
  rw [OptionPricer.bs_call_price, OptionPricer.bs_put_price]
  have hsum : ∀ y : ℝ, norm_cdf y + norm_cdf (-y) = 1 := by
    intro y
    rw [norm_cdf_neg]
    ring
  have h1 := hsum (p.d1 sigma)
  have h2 := hsum (p.d2 sigma)
  have e1 : p.S * norm_cdf (p.d1 sigma) + p.S * norm_cdf (-p.d1 sigma) = p.S := by
    rw [← mul_add, h1, mul_one]
  have e2 : p.K * Real.exp (-p.r * p.T) * norm_cdf (p.d2 sigma) +
      p.K * Real.exp (-p.r * p.T) * norm_cdf (-p.d2 sigma) =
      p.K * Real.exp (-p.r * p.T) := by
    rw [← mul_add, h2, mul_one]
  linarith

open BlackScholes in
/-- Witness for C2 at `(S,K,T,r) = (100,90,1,0.05)`, `σ = 0.3`. -/
theorem C2_put_call_parity_witness :
    (mkPricer 100 90 1 0.05 0.3 0.3).bs_call_price 0.3 -
      (mkPricer 100 90 1 0.05 0.3 0.3).bs_put_price 0.3 =
      (mkPricer 100 90 1 0.05 0.3 0.3).S -
        (mkPricer 100 90 1 0.05 0.3 0.3).K *
          Real.exp (-(mkPricer 100 90 1 0.05 0.3 0.3).r * (mkPricer 100 90 1 0.05 0.3 0.3).T) :=
  C2_put_call_parity (mkPricer 100 90 1 0.05 0.3 0.3) 0.3
    (by norm_num [mkPricer]) (by norm_num [mkPricer])
    (by norm_num [mkPricer]) (by norm_num)

open BlackScholes Greeks in
/-- C10: with `S>0`, `K>0`, `sigma_iv>0` (so `d1` is defined), the delta of
the Greeks calculator lies in `[0,1]` for a call and in `[-1,0]` for a put. -/
theorem C10_delta_bounds (p : OptionPricer)
    (hS : 0 < p.S) (hK : 0 < p.K) (hiv : 0 < p.sigma_iv) :
    (0 ≤ (mkGreeks p "call").delta ∧ (mkGreeks p "call").delta ≤ 1) ∧
    (-1 ≤ (mkGreeks p "put").delta ∧ (mkGreeks p "put").delta ≤ 0) := by
  have hnc : (mkGreeks p "call").option_type ≠ "put" := by
    show pyLower "call" ≠ "put"
    decide
  have hnp : (mkGreeks p "put").option_type = "put" := by
    show pyLower "put" = "put"
    decide
  have hcall : (mkGreeks p "call").delta = norm_cdf p.get_d1 := by
    rw [GreeksCalculator.delta, if_neg hnc]
    rfl
  have hput : (mkGreeks p "put").delta = norm_cdf p.get_d1 - 1 := by
    rw [GreeksCalculator.delta, if_pos hnp]
    rfl
  rw [hcall, hput]
  have h0 := norm_cdf_nonneg p.get_d1
  have h1 := norm_cdf_le_one p.get_d1
  exact ⟨⟨h0, h1⟩, ⟨by linarith, by linarith⟩⟩

open BlackScholes Greeks in
/-- Witness for C10 at the concrete pricer `(100,90,1,0.05,0.3,0.4)`. -/
theorem C10_delta_bounds_witness :
    (0 ≤ (mkGreeks (mkPricer 100 90 1 0.05 0.3 0.4) "call").delta ∧
      (mkGreeks (mkPricer 100 90 1 0.05 0.3 0.4) "call").delta ≤ 1) ∧
    (-1 ≤ (mkGreeks (mkPricer 100 90 1 0.05 0.3 0.4) "put").delta ∧
      (mkGreeks (mkPricer 100 90 1 0.05 0.3 0.4) "put").delta ≤ 0) :=
  C10_delta_bounds (mkPricer 100 90 1 0.05 0.3 0.4)
    (by norm_num [mkPricer]) (by norm_num [mkPricer]) (by norm_num [mkPricer])

namespace BlackScholes

/-- The Black-Scholes call value in reduced variables: spot `a`, discounted
strike `b`, total volatility `τ` (`= σ·√T`); both `_bs_call_price` and the
scenario engine's `_bs_call` are instances of it. -/
def bsCore (a b τ : ℝ) : ℝ :=
  a * norm_cdf (Real.log (a / b) / τ + τ / 2) -
    b * norm_cdf (Real.log (a / b) / τ - τ / 2)

theorem scen_bs_call_eq_bsCore (S K T r sigma : ℝ)
    (hS : 0 < S) (hK : 0 < K) (hT : 0 < T) (hsig : 0 < sigma) :
    Scenarios.bs_call S K T r sigma =
      bsCore S (K * Real.exp (-r * T)) (sigma * Real.sqrt T) := by
  have hsT : 0 < Real.sqrt T := Real.sqrt_pos.mpr hT
  have hτ : sigma * Real.sqrt T ≠ 0 := ne_of_gt (mul_pos hsig hsT)
  have hlog : Real.log (S / (K * Real.exp (-r * T))) = Real.log (S / K) + r * T := by
    rw [div_mul_eq_div_div, Real.log_div (ne_of_gt (div_pos hS hK)) (ne_of_gt (Real.exp_pos _)),
      Real.log_exp]
    ring
  have hsq : Real.sqrt T * Real.sqrt T = T := Real.mul_self_sqrt hT.le
  have hd1 : (Real.log (S / K) + (r + 0.5 * sigma ^ 2) * T) / (sigma * Real.sqrt T) =
      Real.log (S / (K * Real.exp (-r * T))) / (sigma * Real.sqrt T) +
        sigma * Real.sqrt T / 2 := by
    rw [hlog]
    field_simp
    linear_combination (-sigma ^ 3 * Real.sqrt T) * hsq
  show S * norm_cdf ((Real.log (S / K) + (r + 0.5 * sigma ^ 2) * T) / (sigma * Real.sqrt T)) -
      K * Real.exp (-r * T) *
        norm_cdf ((Real.log (S / K) + (r + 0.5 * sigma ^ 2) * T) / (sigma * Real.sqrt T) -
          sigma * Real.sqrt T) = _
  rw [bsCore, hd1]
  have harg : Real.log (S / (K * Real.exp (-r * T))) / (sigma * Real.sqrt T) +
      sigma * Real.sqrt T / 2 - sigma * Real.sqrt T =
      Real.log (S / (K * Real.exp (-r * T))) / (sigma * Real.sqrt T) -
        sigma * Real.sqrt T / 2 := by
    ring
  rw [harg]

theorem bs_call_price_eq_bsCore (p : OptionPricer) (sigma : ℝ)
    (hS : 0 < p.S) (hK : 0 < p.K) (hT : 0 < p.T) (hsig : 0 < sigma) :
    p.bs_call_price sigma =
      bsCore p.S (p.K * Real.exp (-p.r * p.T)) (sigma * Real.sqrt p.T) := by
  have h := scen_bs_call_eq_bsCore p.S p.K p.T p.r sigma hS hK hT hsig
  rw [← h]
  rfl

/-- The Black-Scholes kernel identity `a·φ(d1) = b·φ(d2)` for
`d1 = ln(a/b)/τ + τ/2`, `d2 = d1 - τ`. -/
theorem spot_pdf_eq_strike_pdf (a b τ : ℝ) (ha : 0 < a) (hb : 0 < b) (hτ : τ ≠ 0) :
    a * norm_pdf (Real.log (a / b) / τ + τ / 2) =
      b * norm_pdf (Real.log (a / b) / τ - τ / 2) := by
  rw [norm_pdf_eq, norm_pdf_eq]
  have hexp : -(Real.log (a / b) / τ + τ / 2) ^ 2 / 2 =
      (-(Real.log (a / b) / τ - τ / 2) ^ 2 / 2) - Real.log (a / b) := by
    field_simp
    ring
  rw [hexp, Real.exp_sub, Real.exp_log (div_pos ha hb)]
  have h2pi : Real.sqrt (2 * π) ≠ 0 := ne_of_gt (Real.sqrt_pos.mpr (by positivity))
  field_simp
  ring

end BlackScholes

namespace BlackScholes

theorem bsCore_hasDerivAt_spot (b τ : ℝ) (hb : 0 < b) (hτ : 0 < τ)
    {a : ℝ} (ha : 0 < a) :
    HasDerivAt (fun x : ℝ => bsCore x b τ)
      (norm_cdf (Real.log (a / b) / τ + τ / 2)) a := by
  have hτ' : τ ≠ 0 := ne_of_gt hτ
  have hlogd : HasDerivAt (fun x : ℝ => Real.log (x / b)) (1 / a) a := by
    have hdiv : HasDerivAt (fun x : ℝ => x / b) (1 / b) a := by
      simpa using (hasDerivAt_id a).div_const b
    have hlog := (Real.hasDerivAt_log (ne_of_gt (div_pos ha hb))).comp a hdiv
    have heq : (a / b)⁻¹ * (1 / b) = 1 / a := by
      field_simp
      ring
    rwa [heq] at hlog
  have hd1 : HasDerivAt (fun x : ℝ => Real.log (x / b) / τ + τ / 2)
      (1 / a / τ) a :=
    (hlogd.div_const τ).add_const (τ / 2)
  have hd2 : HasDerivAt (fun x : ℝ => Real.log (x / b) / τ - τ / 2)
      (1 / a / τ) a :=
    (hlogd.div_const τ).sub_const (τ / 2)
  have hphi1 : HasDerivAt (fun x : ℝ => norm_cdf (Real.log (x / b) / τ + τ / 2))
      (norm_pdf (Real.log (a / b) / τ + τ / 2) * (1 / a / τ)) a :=
    (norm_cdf_hasDerivAt (Real.log (a / b) / τ + τ / 2)).comp a hd1
  have hphi2 : HasDerivAt (fun x : ℝ => norm_cdf (Real.log (x / b) / τ - τ / 2))
      (norm_pdf (Real.log (a / b) / τ - τ / 2) * (1 / a / τ)) a :=
    (norm_cdf_hasDerivAt (Real.log (a / b) / τ - τ / 2)).comp a hd2
  have hterm1 : HasDerivAt (fun x : ℝ => x * norm_cdf (Real.log (x / b) / τ + τ / 2))
      (1 * norm_cdf (Real.log (a / b) / τ + τ / 2) +
        a * (norm_pdf (Real.log (a / b) / τ + τ / 2) * (1 / a / τ))) a :=
    (hasDerivAt_id a).mul hphi1
  have hterm2 : HasDerivAt (fun x : ℝ => b * norm_cdf (Real.log (x / b) / τ - τ / 2))
      (b * (norm_pdf (Real.log (a / b) / τ - τ / 2) * (1 / a / τ))) a :=
    hphi2.const_mul b
  have htotal := hterm1.sub hterm2
  have hkey := spot_pdf_eq_strike_pdf a b τ ha hb hτ'
  have hgen : ∀ u v w : ℝ, a * u = b * v →
      1 * w + a * (u * (1 / a / τ)) - b * (v * (1 / a / τ)) = w := by
    intro u v w hk
    have ha' : a ≠ 0 := ne_of_gt ha
    field_simp
    linear_combination hk
  rw [hgen (norm_pdf (Real.log (a / b) / τ + τ / 2))
    (norm_pdf (Real.log (a / b) / τ - τ / 2))
    (norm_cdf (Real.log (a / b) / τ + τ / 2)) hkey] at htotal
  exact htotal

end BlackScholes

namespace BlackScholes

theorem bsCore_tau_le (a b : ℝ) (ha : 0 < a) (hb : 0 < b)
    {τ1 τ2 : ℝ} (h1 : 0 < τ1) (h12 : τ1 ≤ τ2) :
    bsCore a b τ1 ≤ bsCore a b τ2 := by
  have hD : ∀ τ : ℝ, 0 < τ → HasDerivAt (fun t : ℝ => bsCore a b t)
      (a * norm_pdf (Real.log (a / b) / τ + τ / 2)) τ := by
    intro τ hτ
    have hτ' : τ ≠ 0 := ne_of_gt hτ
    have hinv : HasDerivAt (fun t : ℝ => Real.log (a / b) / t)
        (-(Real.log (a / b) / τ ^ 2)) τ := by
      have h := (hasDerivAt_inv hτ').const_mul (Real.log (a / b))
      have heq : (fun t : ℝ => Real.log (a / b) * t⁻¹) = fun t : ℝ => Real.log (a / b) / t := by
        funext t
        ring
      rw [heq] at h
      convert h using 1
      field_simp
    have hd1 : HasDerivAt (fun t : ℝ => Real.log (a / b) / t + t / 2)
        (-(Real.log (a / b) / τ ^ 2) + 1 / 2) τ := by
      have hhalf : HasDerivAt (fun t : ℝ => t / 2) ((1:ℝ) / 2) τ := by
        simpa using (hasDerivAt_id τ).div_const 2
      exact hinv.add hhalf
    have hd2 : HasDerivAt (fun t : ℝ => Real.log (a / b) / t - t / 2)
        (-(Real.log (a / b) / τ ^ 2) - 1 / 2) τ := by
      have hhalf : HasDerivAt (fun t : ℝ => t / 2) ((1:ℝ) / 2) τ := by
        simpa using (hasDerivAt_id τ).div_const 2
      exact hinv.sub hhalf
    have hphi1 := (norm_cdf_hasDerivAt (Real.log (a / b) / τ + τ / 2)).comp τ hd1
    have hphi2 := (norm_cdf_hasDerivAt (Real.log (a / b) / τ - τ / 2)).comp τ hd2
    have htotal := (hphi1.const_mul a).sub (hphi2.const_mul b)
    have hkey := spot_pdf_eq_strike_pdf a b τ ha hb hτ'
    have hgen : ∀ u v : ℝ, a * u = b * v →
        a * (u * (-(Real.log (a / b) / τ ^ 2) + 1 / 2)) -
          b * (v * (-(Real.log (a / b) / τ ^ 2) - 1 / 2)) = a * u := by
      intro u v hk
      linear_combination (-(Real.log (a / b) / τ ^ 2) - 1 / 2) * hk
    have hval := hgen (norm_pdf (Real.log (a / b) / τ + τ / 2))
      (norm_pdf (Real.log (a / b) / τ - τ / 2)) hkey
    rw [hval] at htotal
    exact htotal
  have hmono : StrictMonoOn (fun t : ℝ => bsCore a b t) (Set.Ioi 0) := by
    have hderiv : ∀ t ∈ interior (Set.Ioi (0:ℝ)),
        0 < deriv (fun x : ℝ => bsCore a b x) t := by
      intro t ht
      rw [interior_Ioi] at ht
      rw [(hD t ht).deriv]
      exact mul_pos ha (norm_pdf_pos _)
    refine strictMonoOn_of_deriv_pos (convex_Ioi 0) ?_ hderiv
    intro t ht
    exact ((hD t ht).continuousAt).continuousWithinAt
  exact hmono.monotoneOn (Set.mem_Ioi.mpr h1)
    (Set.mem_Ioi.mpr (lt_of_lt_of_le h1 h12)) h12

theorem bsCore_strike_le (a τ : ℝ) (ha : 0 < a) (hτ : 0 < τ)
    {b1 b2 : ℝ} (hb1 : 0 < b1) (h12 : b1 ≤ b2) :
    bsCore a b2 τ ≤ bsCore a b1 τ := by
  have hτ' : τ ≠ 0 := ne_of_gt hτ
  have hD : ∀ b : ℝ, 0 < b → HasDerivAt (fun y : ℝ => bsCore a y τ)
      (-norm_cdf (Real.log (a / b) / τ - τ / 2)) b := by
    intro b hb
    have hb' : b ≠ 0 := ne_of_gt hb
    have hinner : HasDerivAt (fun y : ℝ => a / y) (-(a / b ^ 2)) b := by
      have h := (hasDerivAt_inv hb').const_mul a
      have heq : (fun y : ℝ => a * y⁻¹) = fun y : ℝ => a / y := by
        funext y
        ring
      rw [heq] at h
      convert h using 1
      field_simp
    have hlog : HasDerivAt (fun y : ℝ => Real.log (a / y)) (-(1 / b)) b := by
      have h := (Real.hasDerivAt_log (ne_of_gt (div_pos ha hb))).comp b hinner
      convert h using 1
      field_simp
      ring
    have hd1 : HasDerivAt (fun y : ℝ => Real.log (a / y) / τ + τ / 2)
        (-(1 / b) / τ) b :=
      (hlog.div_const τ).add_const (τ / 2)
    have hd2 : HasDerivAt (fun y : ℝ => Real.log (a / y) / τ - τ / 2)
        (-(1 / b) / τ) b :=
      (hlog.div_const τ).sub_const (τ / 2)
    have hphi1 := (norm_cdf_hasDerivAt (Real.log (a / b) / τ + τ / 2)).comp b hd1
    have hphi2 := (norm_cdf_hasDerivAt (Real.log (a / b) / τ - τ / 2)).comp b hd2
    have hterm2 : HasDerivAt
        (fun y : ℝ => y * norm_cdf (Real.log (a / y) / τ - τ / 2))
        (1 * norm_cdf (Real.log (a / b) / τ - τ / 2) +
          b * (norm_pdf (Real.log (a / b) / τ - τ / 2) * (-(1 / b) / τ))) b :=
      (hasDerivAt_id b).mul hphi2
    have htotal := (hphi1.const_mul a).sub hterm2
    have hkey := spot_pdf_eq_strike_pdf a b τ ha hb hτ'
    have hgen : ∀ u v w : ℝ, a * u = b * v →
        a * (u * (-(1 / b) / τ)) - (1 * w + b * (v * (-(1 / b) / τ))) = -w := by
      intro u v w hk
      linear_combination (-(1 / b) / τ) * hk
    have hval := hgen (norm_pdf (Real.log (a / b) / τ + τ / 2))
      (norm_pdf (Real.log (a / b) / τ - τ / 2))
      (norm_cdf (Real.log (a / b) / τ - τ / 2)) hkey
    rw [hval] at htotal
    exact htotal
  have hanti : StrictAntiOn (fun y : ℝ => bsCore a y τ) (Set.Ioi 0) := by
    have hderiv : ∀ y ∈ interior (Set.Ioi (0:ℝ)),
        deriv (fun x : ℝ => bsCore a x τ) y < 0 := by
      intro y hy
      rw [interior_Ioi] at hy
      rw [(hD y hy).deriv]
      exact neg_neg_iff_pos.mpr (norm_cdf_pos _)
    refine strictAntiOn_of_deriv_neg (convex_Ioi 0) ?_ hderiv
    intro y hy
    exact ((hD y hy).continuousAt).continuousWithinAt
  exact hanti.antitoneOn (Set.mem_Ioi.mpr hb1)
    (Set.mem_Ioi.mpr (lt_of_lt_of_le hb1 h12)) h12

theorem bsCore_spot_lt (b τ : ℝ) (hb : 0 < b) (hτ : 0 < τ)
    {a1 a2 : ℝ} (ha1 : 0 < a1) (h12 : a1 < a2) :
    bsCore a1 b τ < bsCore a2 b τ := by
  have hmono : StrictMonoOn (fun a : ℝ => bsCore a b τ) (Set.Ioi 0) := by
    have hderiv : ∀ a ∈ interior (Set.Ioi (0:ℝ)),
        0 < deriv (fun x : ℝ => bsCore x b τ) a := by
      intro a ha
      rw [interior_Ioi] at ha
      rw [(bsCore_hasDerivAt_spot b τ hb hτ ha).deriv]
      exact norm_cdf_pos _
    refine strictMonoOn_of_deriv_pos (convex_Ioi 0) ?_ hderiv
    intro a ha
    exact ((bsCore_hasDerivAt_spot b τ hb hτ ha).continuousAt).continuousWithinAt
  exact hmono (Set.mem_Ioi.mpr ha1) (Set.mem_Ioi.mpr (lt_trans ha1 h12)) h12

end BlackScholes

open BlackScholes in
/-- C9: for fixed `S>0`, `K>0`, `T>0`, `r`, the Black-Scholes call price is
non-decreasing in `σ` on `σ>0`, and the Greeks engine's vega
`S·√T·φ(d1)/100` is non-negative for every option type. -/
theorem C9_call_mono_sigma_vega_nonneg (p : OptionPricer)
    (hS : 0 < p.S) (hK : 0 < p.K) (hT : 0 < p.T) :
    MonotoneOn (fun sigma => p.bs_call_price sigma) (Set.Ioi (0:ℝ)) ∧
    ∀ option_type : String, 0 ≤ (Greeks.mkGreeks p option_type).vega := by
  constructor
  · intro s1 h1 s2 h2 h12
    rw [Set.mem_Ioi] at h1 h2
    show p.bs_call_price s1 ≤ p.bs_call_price s2
    rw [bs_call_price_eq_bsCore p s1 hS hK hT h1,
      bs_call_price_eq_bsCore p s2 hS hK hT h2]
    have hB : 0 < p.K * Real.exp (-p.r * p.T) := mul_pos hK (Real.exp_pos _)
    have hsT : 0 < Real.sqrt p.T := Real.sqrt_pos.mpr hT
    exact bsCore_tau_le p.S _ hS hB (mul_pos h1 hsT)
      (mul_le_mul_of_nonneg_right h12 hsT.le)
  · intro option_type
    show 0 ≤ p.S * Real.sqrt p.T * norm_pdf p.get_d1 / 100
    have h := norm_pdf_pos p.get_d1
    positivity

open BlackScholes in
/-- Witness for C9 at the concrete pricer `(100,90,1,0.05,0.3,0.4)`. -/
theorem C9_call_mono_sigma_vega_nonneg_witness :
    MonotoneOn (fun sigma => (mkPricer 100 90 1 0.05 0.3 0.4).bs_call_price sigma)
      (Set.Ioi (0:ℝ)) ∧
    ∀ option_type : String,
      0 ≤ (Greeks.mkGreeks (mkPricer 100 90 1 0.05 0.3 0.4) option_type).vega :=
  C9_call_mono_sigma_vega_nonneg (mkPricer 100 90 1 0.05 0.3 0.4)
    (by norm_num [mkPricer]) (by norm_num [mkPricer]) (by norm_num [mkPricer])

namespace BlackScholes

/-- Call theta is strictly negative whenever `S>0`, `σ>0`, `T>0`, `r≥0`,
`K≥0`: the time-decay term is strictly negative and the rate term
non-negative. -/
theorem theta_call_neg (p : OptionPricer) (hS : 0 < p.S) (hsig : 0 < p.sigma_iv)
    (hT : 0 < p.T) (hr : 0 ≤ p.r) (hK : 0 ≤ p.K) :
    (Greeks.mkGreeks p "call").theta < 0 := by
  have hne : (Greeks.mkGreeks p "call").option_type ≠ "put" := by
    show Greeks.pyLower "call" ≠ "put"
    decide
  have hth : (Greeks.mkGreeks p "call").theta =
      (-(p.S * norm_pdf p.get_d1 * p.sigma_iv) / (2 * Real.sqrt p.T) -
        p.r * p.K * Real.exp (-p.r * p.T) * norm_cdf p.get_d2) / 365 := by
    simp only [Greeks.GreeksCalculator.theta]
    rw [if_neg hne]
    rfl
  rw [hth]
  have hsT : 0 < Real.sqrt p.T := Real.sqrt_pos.mpr hT
  have h1 : 0 < p.S * norm_pdf p.get_d1 * p.sigma_iv :=
    mul_pos (mul_pos hS (norm_pdf_pos _)) hsig
  have hterm1 : -(p.S * norm_pdf p.get_d1 * p.sigma_iv) / (2 * Real.sqrt p.T) < 0 :=
    div_neg_of_neg_of_pos (neg_neg_iff_pos.mpr h1) (by linarith)
  have hterm2 : 0 ≤ p.r * p.K * Real.exp (-p.r * p.T) * norm_cdf p.get_d2 := by
    have := norm_cdf_nonneg p.get_d2
    positivity
  have : -(p.S * norm_pdf p.get_d1 * p.sigma_iv) / (2 * Real.sqrt p.T) -
      p.r * p.K * Real.exp (-p.r * p.T) * norm_cdf p.get_d2 < 0 := by linarith
  linarith [div_neg_of_neg_of_pos this (show (0:ℝ) < 365 by norm_num)]

end BlackScholes

open BlackScholes Scenarios Greeks in
/-- C4 (amended): for a position with `S>0`, `K>0`, `market_price>0`,
`num_contracts>0` built on a pricer with `sigma_iv ≥ 0.05` (so the Flat
scenario's volatility floor is inactive), `T ≥ 0.001` and `r ≥ 0`: theta is
negative, the Flat scenario's repriced value is at most the unshocked model
price, and the reported Flat pnl is positive exactly when the repriced
value exceeds the market price (the pnl compares against `market_price`,
not against the model price, so its sign does not track theta's sign in
general). -/
theorem C4_flat_decay_spec (p : OptionPricer) (mp nc : ℝ)
    (hS : 0 < p.S) (hK : 0 < p.K) (hT : 0.001 ≤ p.T) (hsig : 0.05 ≤ p.sigma_iv)
    (hr : 0 ≤ p.r) (hmp : 0 < mp) (hnc : 0 < nc) :
    (mkGreeks p "call").theta < 0 ∧
    bs_call ((mkEngine p mp nc).newS 0.0) (mkEngine p mp nc).K
        ((mkEngine p mp nc).newT 7) (mkEngine p mp nc).r
        ((mkEngine p mp nc).newSigma 0.0) ≤
      bs_call p.S p.K p.T p.r p.sigma_iv ∧
    (0 < (mkEngine p mp nc).calculate_scenario_pnl 0.0 0.0 7 ↔
      mp < bs_call ((mkEngine p mp nc).newS 0.0) (mkEngine p mp nc).K
        ((mkEngine p mp nc).newT 7) (mkEngine p mp nc).r
        ((mkEngine p mp nc).newSigma 0.0)) := by
  have hsig0 : 0 < p.sigma_iv := lt_of_lt_of_le (by norm_num) hsig
  have hT0 : 0 < p.T := lt_of_lt_of_le (by norm_num) hT
  have hS' : (mkEngine p mp nc).newS 0.0 = p.S := by
    rw [ScenarioEngine.newS]
    show p.S * (1 + 0.0) = p.S
    norm_num
  have hsig' : (mkEngine p mp nc).newSigma 0.0 = p.sigma_iv := by
    rw [ScenarioEngine.newSigma]
    show max (p.sigma_iv + 0.0) 0.05 = p.sigma_iv
    rw [show p.sigma_iv + 0.0 = p.sigma_iv by norm_num]
    exact max_eq_left hsig
  have hT'le : (mkEngine p mp nc).newT 7 ≤ p.T := by
    rw [ScenarioEngine.newT]
    show max (p.T - 7 / 365) 0.001 ≤ p.T
    refine max_le (by linarith) hT
  have hT'pos : 0 < (mkEngine p mp nc).newT 7 := by
    rw [ScenarioEngine.newT]
    exact lt_of_lt_of_le (by norm_num) (le_max_right _ _)
  refine ⟨theta_call_neg p hS hsig0 hT0 hr hK.le, ?_, ?_⟩
  · rw [hS', hsig']
    show bs_call p.S p.K ((mkEngine p mp nc).newT 7) p.r p.sigma_iv ≤ _
    rw [scen_bs_call_eq_bsCore p.S p.K _ p.r p.sigma_iv hS hK hT'pos hsig0,
      scen_bs_call_eq_bsCore p.S p.K p.T p.r p.sigma_iv hS hK hT0 hsig0]
    have hsT : 0 < Real.sqrt ((mkEngine p mp nc).newT 7) := Real.sqrt_pos.mpr hT'pos
    have hτ1 : 0 < p.sigma_iv * Real.sqrt ((mkEngine p mp nc).newT 7) :=
      mul_pos hsig0 hsT
    have hB2 : 0 < p.K * Real.exp (-p.r * p.T) := mul_pos hK (Real.exp_pos _)
    have hstep1 : bsCore p.S (p.K * Real.exp (-p.r * (mkEngine p mp nc).newT 7))
        (p.sigma_iv * Real.sqrt ((mkEngine p mp nc).newT 7)) ≤
        bsCore p.S (p.K * Real.exp (-p.r * (mkEngine p mp nc).newT 7))
          (p.sigma_iv * Real.sqrt p.T) := by
      refine bsCore_tau_le p.S _ hS (mul_pos hK (Real.exp_pos _)) hτ1 ?_
      exact mul_le_mul_of_nonneg_left (Real.sqrt_le_sqrt hT'le) hsig0.le
    have hstep2 : bsCore p.S (p.K * Real.exp (-p.r * (mkEngine p mp nc).newT 7))
        (p.sigma_iv * Real.sqrt p.T) ≤
        bsCore p.S (p.K * Real.exp (-p.r * p.T)) (p.sigma_iv * Real.sqrt p.T) := by
      refine bsCore_strike_le p.S _ hS (mul_pos hsig0 (Real.sqrt_pos.mpr hT0)) hB2 ?_
      refine mul_le_mul_of_nonneg_left ?_ hK.le
      refine Real.exp_le_exp.mpr ?_
      nlinarith [mul_le_mul_of_nonneg_left hT'le hr]
    linarith
  · have hpnl : (mkEngine p mp nc).calculate_scenario_pnl 0.0 0.0 7 =
        (bs_call ((mkEngine p mp nc).newS 0.0) (mkEngine p mp nc).K
          ((mkEngine p mp nc).newT 7) (mkEngine p mp nc).r
          ((mkEngine p mp nc).newSigma 0.0) - mp) * 100 * nc := rfl
    rw [hpnl]
    constructor
    · intro h
      by_contra hle
      push_neg at hle
      nlinarith
    · intro h
      nlinarith

open BlackScholes Scenarios Greeks in
/-- Witness for C4 (amended) at the pricer `(100,90,1,0.05,0.3,0.3)`,
market price 5, 10 contracts. -/
theorem C4_flat_decay_spec_witness :
    (mkGreeks (mkPricer 100 90 1 0.05 0.3 0.3) "call").theta < 0 ∧
    bs_call ((mkEngine (mkPricer 100 90 1 0.05 0.3 0.3) 5 10).newS 0.0)
        (mkEngine (mkPricer 100 90 1 0.05 0.3 0.3) 5 10).K
        ((mkEngine (mkPricer 100 90 1 0.05 0.3 0.3) 5 10).newT 7)
        (mkEngine (mkPricer 100 90 1 0.05 0.3 0.3) 5 10).r
        ((mkEngine (mkPricer 100 90 1 0.05 0.3 0.3) 5 10).newSigma 0.0) ≤
      bs_call (mkPricer 100 90 1 0.05 0.3 0.3).S (mkPricer 100 90 1 0.05 0.3 0.3).K
        (mkPricer 100 90 1 0.05 0.3 0.3).T (mkPricer 100 90 1 0.05 0.3 0.3).r
        (mkPricer 100 90 1 0.05 0.3 0.3).sigma_iv ∧
    (0 < (mkEngine (mkPricer 100 90 1 0.05 0.3 0.3) 5 10).calculate_scenario_pnl 0.0 0.0 7 ↔
      5 < bs_call ((mkEngine (mkPricer 100 90 1 0.05 0.3 0.3) 5 10).newS 0.0)
        (mkEngine (mkPricer 100 90 1 0.05 0.3 0.3) 5 10).K
        ((mkEngine (mkPricer 100 90 1 0.05 0.3 0.3) 5 10).newT 7)
        (mkEngine (mkPricer 100 90 1 0.05 0.3 0.3) 5 10).r
        ((mkEngine (mkPricer 100 90 1 0.05 0.3 0.3) 5 10).newSigma 0.0)) :=
  C4_flat_decay_spec (mkPricer 100 90 1 0.05 0.3 0.3) 5 10
    (by norm_num [mkPricer]) (by norm_num [mkPricer])
    (by norm_num [mkPricer]) (by norm_num [mkPricer])
    (by norm_num [mkPricer]) (by norm_num) (by norm_num)

open BlackScholes Scenarios Greeks in
/-- Counterexample to C4 as stated: at the position
`(S,K,T,r,σ) = (100,10,1,0,0.3)`, `market_price = 1`, `num_contracts = 1`
(all positive, σ>0), the Flat scenario of the table has theta strictly
negative while the reported Flat pnl is strictly positive: the pnl is
measured against the market price, not against the model price, so its
sign does not match theta's sign. -/
theorem C4_sign_counterexample :
    (⟨"Flat", 0.0, 0.0, 7⟩ : ScenarioSpec) ∈ scenarioList ∧
    (mkGreeks (mkPricer 100 10 1 0 0.3 0.3) "call").theta < 0 ∧
    0 < (mkEngine (mkPricer 100 10 1 0 0.3 0.3) 1 1).calculate_scenario_pnl 0.0 0.0 7 := by
  refine ⟨by simp [scenarioList], ?_, ?_⟩
  · exact theta_call_neg (mkPricer 100 10 1 0 0.3 0.3)
      (by norm_num [mkPricer]) (by norm_num [mkPricer])
      (by norm_num [mkPricer]) (by norm_num [mkPricer]) (by norm_num [mkPricer])
  · have hpnl : (mkEngine (mkPricer 100 10 1 0 0.3 0.3) 1 1).calculate_scenario_pnl
        0.0 0.0 7 =
        (bs_call (100 * (1 + 0.0)) 10 (max ((max (1:ℝ) 0.001) - 7 / 365) 0.001) 0
          (max (0.3 + 0.0) 0.05) - 1) * 100 * 1 := rfl
    rw [hpnl]
    have hT' : max ((max (1:ℝ) 0.001) - 7 / 365) 0.001 = 358 / 365 := by
      rw [show max (1:ℝ) 0.001 = 1 from max_eq_left (by norm_num)]
      rw [show (1:ℝ) - 7 / 365 = 358 / 365 by norm_num]
      exact max_eq_left (by norm_num)
    have hsig' : max ((0.3:ℝ) + 0.0) 0.05 = 0.3 := by
      rw [show (0.3:ℝ) + 0.0 = 0.3 by norm_num]
      exact max_eq_left (by norm_num)
    have hS' : (100:ℝ) * (1 + 0.0) = 100 := by norm_num
    rw [hT', hsig', hS']
    have scge : ∀ S K T r sigma : ℝ, 0 < S → 0 ≤ K →
        0 ≤ (Real.log (S / K) + (r + 0.5 * sigma ^ 2) * T) / (sigma * Real.sqrt T) →
        S / 2 - K * Real.exp (-r * T) ≤ Scenarios.bs_call S K T r sigma := by
      intro S K T r sigma hS hK hd1
      show S / 2 - K * Real.exp (-r * T) ≤
        S * norm_cdf ((Real.log (S / K) + (r + 0.5 * sigma ^ 2) * T) / (sigma * Real.sqrt T)) -
          K * Real.exp (-r * T) *
            norm_cdf ((Real.log (S / K) + (r + 0.5 * sigma ^ 2) * T) / (sigma * Real.sqrt T) -
              sigma * Real.sqrt T)
      have hcdf0 : norm_cdf 0 = 1 / 2 := by
        rw [norm_cdf_eq_half_add]
        rw [zero_div, erfInt_zero, zero_div, add_zero]
      have hphi1 : (1:ℝ) / 2 ≤ norm_cdf
          ((Real.log (S / K) + (r + 0.5 * sigma ^ 2) * T) / (sigma * Real.sqrt T)) := by
        rw [← hcdf0]
        exact norm_cdf_mono hd1
      have h1 : S * (1 / 2) ≤ S * norm_cdf
          ((Real.log (S / K) + (r + 0.5 * sigma ^ 2) * T) / (sigma * Real.sqrt T)) :=
        mul_le_mul_of_nonneg_left hphi1 hS.le
      have hKe : 0 ≤ K * Real.exp (-r * T) := mul_nonneg hK (Real.exp_pos _).le
      have h2 : K * Real.exp (-r * T) *
          norm_cdf ((Real.log (S / K) + (r + 0.5 * sigma ^ 2) * T) / (sigma * Real.sqrt T) -
            sigma * Real.sqrt T) ≤ K * Real.exp (-r * T) * 1 :=
        mul_le_mul_of_nonneg_left (norm_cdf_le_one _) hKe
      linarith
    have hge := scge 100 10 (358 / 365) 0 0.3 (by norm_num) (by norm_num) ?_
    · have : (10:ℝ) * Real.exp (-0 * (358 / 365)) = 10 := by
        rw [show (-0:ℝ) * (358 / 365) = 0 by norm_num, Real.exp_zero]
        norm_num
      rw [this] at hge
      nlinarith
    · refine div_nonneg ?_ ?_
      · have hlog : 0 ≤ Real.log (100 / 10) := by
          rw [show (100:ℝ) / 10 = 10 by norm_num]
          exact Real.log_nonneg (by norm_num)
        nlinarith
      · positivity

namespace BlackScholes

/-- Degree-7 lower truncation of the erf integrand's antiderivative. -/
def erfPolyLow (w : ℝ) : ℝ :=
  w - w ^ 3 / 3 + w ^ 5 / 10 - w ^ 7 / 42 - 5 * w ^ 9 / 864

/-- Degree-7 upper truncation of the erf integrand's antiderivative. -/
def erfPolyHigh (w : ℝ) : ℝ :=
  w - w ^ 3 / 3 + w ^ 5 / 10 - w ^ 7 / 42 + 5 * w ^ 9 / 864

theorem erfInt_poly_bounds {w : ℝ} (h0 : 0 ≤ w) (h1 : w ≤ 1) :
    erfPolyLow w ≤ erfInt w ∧ erfInt w ≤ erfPolyHigh w := by
  have habs : ∀ t ∈ Set.Icc (0:ℝ) w, |t| ≤ 1 := by
    intro t ht
    rw [abs_of_nonneg ht.1]
    exact le_trans ht.2 h1
  have hcontp : ∀ c : ℝ, Continuous fun t : ℝ => 1 - t ^ 2 + t ^ 4 / 2 - t ^ 6 / 6 + c * t ^ 8 := by
    intro c
    continuity
  have integral_poly : ∀ c : ℝ,
      (∫ t in (0:ℝ)..w, (1 - t ^ 2 + t ^ 4 / 2 - t ^ 6 / 6 + c * t ^ 8)) =
        w - w ^ 3 / 3 + w ^ 5 / 10 - w ^ 7 / 42 + c * w ^ 9 / 9 := by
    intro c
    have hF : ∀ t : ℝ, HasDerivAt
        (fun t : ℝ => t - t ^ 3 / 3 + t ^ 5 / 10 - t ^ 7 / 42 + c * t ^ 9 / 9)
        (1 - t ^ 2 + t ^ 4 / 2 - t ^ 6 / 6 + c * t ^ 8) t := by
      intro t
      have h := ((((hasDerivAt_id t).sub ((hasDerivAt_pow 3 t).div_const 3)).add
        ((hasDerivAt_pow 5 t).div_const 10)).sub
        ((hasDerivAt_pow 7 t).div_const 42)).add
        (((hasDerivAt_pow 9 t).const_mul c).div_const 9)
      convert h using 1
      push_cast
      ring
    rw [intervalIntegral.integral_eq_sub_of_hasDerivAt (fun t _ => hF t)
      ((hcontp c).intervalIntegrable 0 w)]
    norm_num
  have exp_bds : ∀ t : ℝ, |t| ≤ 1 →
      (1 - t ^ 2 + t ^ 4 / 2 - t ^ 6 / 6 + -(5 / 96) * t ^ 8 ≤ Real.exp (-t ^ 2) ∧
        Real.exp (-t ^ 2) ≤ 1 - t ^ 2 + t ^ 4 / 2 - t ^ 6 / 6 + 5 / 96 * t ^ 8) := by
    intro t ht
    have hx : |(-t ^ 2 : ℝ)| ≤ 1 := by
      rw [abs_neg, abs_pow]
      calc |t| ^ 2 ≤ 1 ^ 2 := pow_le_pow_left (abs_nonneg t) ht 2
        _ = 1 := one_pow 2
    have h := Real.exp_bound hx (show 0 < 4 by norm_num)
    have hsum : (∑ m ∈ Finset.range 4, (-t ^ 2) ^ m / m.factorial) =
        1 - t ^ 2 + t ^ 4 / 2 - t ^ 6 / 6 := by
      rw [Finset.sum_range_succ, Finset.sum_range_succ, Finset.sum_range_succ,
        Finset.sum_range_succ, Finset.sum_range_zero]
      norm_num [Nat.factorial]
      ring
    rw [hsum] at h
    have h' : |Real.exp (-t ^ 2) - (1 - t ^ 2 + t ^ 4 / 2 - t ^ 6 / 6)| ≤ 5 / 96 * t ^ 8 := by
      refine le_trans h (le_of_eq ?_)
      rw [abs_neg, abs_pow, ← pow_mul, pow_abs,
        abs_of_nonneg (show (0:ℝ) ≤ t ^ 8 by positivity)]
      norm_num [Nat.factorial]
      ring
    constructor
    · have := (abs_sub_le_iff.mp h').2
      linarith
    · have := (abs_sub_le_iff.mp h').1
      linarith
  constructor
  · have hmono := intervalIntegral.integral_mono_on h0
      ((hcontp (-(5/96))).intervalIntegrable 0 w)
      (intervalIntegrable_expNegSq 0 w)
      (fun t ht => (exp_bds t (habs t ht)).1)
    rw [integral_poly (-(5/96))] at hmono
    calc erfPolyLow w = w - w ^ 3 / 3 + w ^ 5 / 10 - w ^ 7 / 42 + -(5/96) * w ^ 9 / 9 := by
          rw [erfPolyLow]; ring
      _ ≤ erfInt w := hmono
  · have hmono := intervalIntegral.integral_mono_on h0
      (intervalIntegrable_expNegSq 0 w)
      ((hcontp (5/96)).intervalIntegrable 0 w)
      (fun t ht => (exp_bds t (habs t ht)).2)
    rw [integral_poly (5/96)] at hmono
    calc erfInt w ≤ w - w ^ 3 / 3 + w ^ 5 / 10 - w ^ 7 / 42 + 5/96 * w ^ 9 / 9 := hmono
      _ = erfPolyHigh w := by rw [erfPolyHigh]; ring

end BlackScholes

namespace BlackScholes

/-- Generic rational lower bound for `norm_cdf` at a non-negative point:
if `w·√2 ≤ x`, `0 ≤ w ≤ 1` and the degree-9 polynomial at `w` is at least
`v ≥ 0`, then `norm_cdf x ≥ 1/2 + v/1.77246`. -/
theorem norm_cdf_ge_poly {x w v : ℝ} (hw0 : 0 ≤ w) (hw1 : w ≤ 1)
    (hwx : w * Real.sqrt 2 ≤ x) (hv0 : 0 ≤ v) (hvL : v ≤ erfPolyLow w) :
    1 / 2 + v / 1.77246 ≤ norm_cdf x := by
  rw [norm_cdf_eq_half_add]
  have hx2 : w ≤ x / Real.sqrt 2 := (le_div_iff sqrt_two_pos).mpr hwx
  have h1 : erfPolyLow w ≤ erfInt w := (erfInt_poly_bounds hw0 hw1).1
  have h2 : erfInt w ≤ erfInt (x / Real.sqrt 2) := erfInt_mono hx2
  have hπ := sqrt_pi_pos
  have hπlt : Real.sqrt π < 1.77246 := by
    rw [show (1.77246 : ℝ) = Real.sqrt (1.77246 ^ 2) from
      (Real.sqrt_sq (by norm_num)).symm]
    refine Real.sqrt_lt_sqrt (le_of_lt Real.pi_pos) ?_
    nlinarith [Real.pi_lt_3141593]
  have hstep1 : v / 1.77246 ≤ v / Real.sqrt π :=
    div_le_div_of_nonneg_left hv0 hπ (le_of_lt hπlt)
  have hstep2 : v / Real.sqrt π ≤ erfInt (x / Real.sqrt 2) / Real.sqrt π :=
    (div_le_div_right hπ).mpr (by linarith)
  linarith

/-- Generic rational upper bound for `norm_cdf` at a non-negative point:
if `0 ≤ x ≤ w·√2`, `w ≤ 1` and the degree-9 polynomial at `w` is at most
`v`, then `norm_cdf x ≤ 1/2 + v/1.77245`. -/
theorem norm_cdf_le_poly {x w v : ℝ} (hw0 : 0 ≤ w) (hw1 : w ≤ 1)
    (hxw : x ≤ w * Real.sqrt 2) (hx0 : 0 ≤ x) (hvU : erfPolyHigh w ≤ v) :
    norm_cdf x ≤ 1 / 2 + v / 1.77245 := by
  rw [norm_cdf_eq_half_add]
  have hx2 : x / Real.sqrt 2 ≤ w := (div_le_iff sqrt_two_pos).mpr hxw
  have h1 : erfInt (x / Real.sqrt 2) ≤ erfInt w := erfInt_mono hx2
  have h2 : erfInt w ≤ erfPolyHigh w := (erfInt_poly_bounds hw0 hw1).2
  have hπ := sqrt_pi_pos
  have hEnn : 0 ≤ erfInt (x / Real.sqrt 2) := by
    have h0 := erfInt_mono (div_nonneg hx0 sqrt_two_pos.le)
    rwa [erfInt_zero] at h0
  have hπgt : 1.77245 < Real.sqrt π := by
    rw [show (1.77245 : ℝ) = Real.sqrt (1.77245 ^ 2) from
      (Real.sqrt_sq (by norm_num)).symm]
    refine Real.sqrt_lt_sqrt (by norm_num) ?_
    nlinarith [Real.pi_gt_3141592]
  have hstep1 : erfInt (x / Real.sqrt 2) / Real.sqrt π ≤
      erfInt (x / Real.sqrt 2) / 1.77245 :=
    div_le_div_of_nonneg_left hEnn (by norm_num) (le_of_lt hπgt)
  have hstep2 : erfInt (x / Real.sqrt 2) / 1.77245 ≤ v / 1.77245 :=
    (div_le_div_right (by norm_num)).mpr (by linarith)
  linarith

end BlackScholes

namespace BlackScholes

/-- At spot 1 (deep OTM relative to the shared strike after a crash to
0.85 with volatility 0.15 versus a rally to 1.15 with volatility 0.05),
the Crash-shocked value strictly exceeds the Bull-shocked value. -/
theorem bsCore_atm_ineq : bsCore 1.15 1 0.5 < bsCore 0.85 1 1.5 := by
  have hs2gt : 1.41421 < Real.sqrt 2 := by
    rw [show (1.41421 : ℝ) = Real.sqrt (1.41421 ^ 2) from
      (Real.sqrt_sq (by norm_num)).symm]
    exact Real.sqrt_lt_sqrt (by norm_num) (by norm_num)
  have hs2lt : Real.sqrt 2 < 1.41422 := by
    rw [show (1.41422 : ℝ) = Real.sqrt (1.41422 ^ 2) from
      (Real.sqrt_sq (by norm_num)).symm]
    exact Real.sqrt_lt_sqrt (by norm_num) (by norm_num)
  have phi053 : norm_cdf 0.53 ≤ 0.702 := by
    have h := norm_cdf_le_poly (w := 0.3748) (v := 0.358) (x := 0.53)
      (by norm_num) (by norm_num)
      (by nlinarith [hs2gt]) (by norm_num)
      (by rw [erfPolyHigh]; norm_num)
    refine le_trans h ?_
    norm_num
  have phi0028 : (0.511 : ℝ) ≤ norm_cdf 0.028 := by
    have h := norm_cdf_ge_poly (w := 0.0197) (v := 0.0196) (x := 0.028)
      (by norm_num) (by norm_num)
      (by nlinarith [hs2lt]) (by norm_num)
      (by rw [erfPolyLow]; norm_num)
    refine le_trans ?_ h
    norm_num
  have phi06413 : (0.739 : ℝ) ≤ norm_cdf 0.6413 := by
    have h := norm_cdf_ge_poly (w := 0.4534) (v := 0.4241) (x := 0.6413)
      (by norm_num) (by norm_num)
      (by nlinarith [hs2lt]) (by norm_num)
      (by rw [erfPolyLow]; norm_num)
    refine le_trans ?_ h
    norm_num
  have phi0858 : (0.8044 : ℝ) ≤ norm_cdf 0.858 := by
    have h := norm_cdf_ge_poly (w := 0.6066) (v := 0.5396) (x := 0.858)
      (by norm_num) (by norm_num)
      (by nlinarith [hs2lt]) (by norm_num)
      (by rw [erfPolyLow]; norm_num)
    refine le_trans ?_ h
    norm_num
  have hlog115 : 0.139 ≤ Real.log 1.15 ∧ Real.log 1.15 ≤ 0.140 := by
    constructor
    · rw [Real.le_log_iff_exp_le (by norm_num : (0:ℝ) < 1.15)]
      have h := Real.exp_bound' (x := 0.139) (by norm_num) (by norm_num)
        (show 0 < 4 by norm_num)
      refine le_trans h ?_
      rw [Finset.sum_range_succ, Finset.sum_range_succ, Finset.sum_range_succ,
        Finset.sum_range_succ, Finset.sum_range_zero]
      norm_num [Nat.factorial]
    · rw [Real.log_le_iff_le_exp (by norm_num : (0:ℝ) < 1.15)]
      have h := Real.sum_le_exp_of_nonneg (x := 0.140) (by norm_num) 4
      refine le_trans ?_ h
      rw [Finset.sum_range_succ, Finset.sum_range_succ, Finset.sum_range_succ,
        Finset.sum_range_succ, Finset.sum_range_zero]
      norm_num [Nat.factorial]
  have hlog2017 : 0.162 ≤ Real.log (20 / 17) ∧ Real.log (20 / 17) ≤ 0.163 := by
    constructor
    · rw [Real.le_log_iff_exp_le (by norm_num : (0:ℝ) < 20 / 17)]
      have h := Real.exp_bound' (x := 0.162) (by norm_num) (by norm_num)
        (show 0 < 4 by norm_num)
      refine le_trans h ?_
      rw [Finset.sum_range_succ, Finset.sum_range_succ, Finset.sum_range_succ,
        Finset.sum_range_succ, Finset.sum_range_zero]
      norm_num [Nat.factorial]
    · rw [Real.log_le_iff_le_exp (by norm_num : (0:ℝ) < 20 / 17)]
      have h := Real.sum_le_exp_of_nonneg (x := 0.163) (by norm_num) 4
      refine le_trans ?_ h
      rw [Finset.sum_range_succ, Finset.sum_range_succ, Finset.sum_range_succ,
        Finset.sum_range_succ, Finset.sum_range_zero]
      norm_num [Nat.factorial]
  have hlog085 : -0.163 ≤ Real.log 0.85 ∧ Real.log 0.85 ≤ -0.162 := by
    have h : Real.log 0.85 = -Real.log (20 / 17) := by
      rw [show (0.85 : ℝ) = (20 / 17)⁻¹ by norm_num, Real.log_inv]
    obtain ⟨h1, h2⟩ := hlog2017
    rw [h]
    constructor <;> linarith
  obtain ⟨hl1, hl2⟩ := hlog115
  obtain ⟨hm1, hm2⟩ := hlog085
  have e1 : Real.log (1.15 / 1) = Real.log 1.15 := by norm_num
  have e2 : Real.log (0.85 / 1) = Real.log 0.85 := by norm_num
  rw [bsCore, bsCore, e1, e2]
  have er1 : Real.log 1.15 / 0.5 = Real.log 1.15 * 2 := by ring
  have er2 : Real.log 0.85 / 1.5 = Real.log 0.85 * (2 / 3) := by ring
  have hd1B : Real.log 1.15 / 0.5 + 0.5 / 2 ≤ 0.53 := by rw [er1]; linarith
  have hd2B : (0.028 : ℝ) ≤ Real.log 1.15 / 0.5 - 0.5 / 2 := by rw [er1]; linarith
  have hd1C : (0.6413 : ℝ) ≤ Real.log 0.85 / 1.5 + 1.5 / 2 := by rw [er2]; linarith
  have hd2C : Real.log 0.85 / 1.5 - 1.5 / 2 ≤ -0.858 := by rw [er2]; linarith
  have hB1 : norm_cdf (Real.log 1.15 / 0.5 + 0.5 / 2) ≤ 0.702 :=
    le_trans (norm_cdf_mono hd1B) phi053
  have hB2 : (0.511 : ℝ) ≤ norm_cdf (Real.log 1.15 / 0.5 - 0.5 / 2) :=
    le_trans phi0028 (norm_cdf_mono hd2B)
  have hC1 : (0.739 : ℝ) ≤ norm_cdf (Real.log 0.85 / 1.5 + 1.5 / 2) :=
    le_trans phi06413 (norm_cdf_mono hd1C)
  have hC2 : norm_cdf (Real.log 0.85 / 1.5 - 1.5 / 2) ≤ 0.1956 := by
    have h1 : norm_cdf (Real.log 0.85 / 1.5 - 1.5 / 2) ≤ norm_cdf (-0.858) :=
      norm_cdf_mono hd2C
    have h2 : norm_cdf (-(0.858 : ℝ)) = 1 - norm_cdf 0.858 := norm_cdf_neg 0.858
    have h3 : norm_cdf (-(0.858 : ℝ)) ≤ 1 - 0.8044 := by
      rw [h2]
      linarith [phi0858]
    have h4 : ((-0.858 : ℝ)) = -(0.858 : ℝ) := by norm_num
    rw [h4] at h1
    linarith
  nlinarith [norm_cdf_nonneg (Real.log 1.15 / 0.5 + 0.5 / 2),
    norm_cdf_nonneg (Real.log 0.85 / 1.5 + 1.5 / 2)]

/-- At spot 20 (deep ITM), the Bull-shocked value strictly exceeds the
Crash-shocked value. -/
theorem bsCore_itm_ineq : bsCore 17 1 1.5 < bsCore 23 1 0.5 := by
  have hs2lt : Real.sqrt 2 < 1.41422 := by
    rw [show (1.41422 : ℝ) = Real.sqrt (1.41422 ^ 2) from
      (Real.sqrt_sq (by norm_num)).symm]
    exact Real.sqrt_lt_sqrt (by norm_num) (by norm_num)
  have phi1 : (0.841 : ℝ) ≤ norm_cdf 1 := by
    have h := norm_cdf_ge_poly (w := 0.7071) (v := 0.6045) (x := 1)
      (by norm_num) (by norm_num)
      (by nlinarith [hs2lt]) (by norm_num)
      (by rw [erfPolyLow]; norm_num)
    refine le_trans ?_ h
    norm_num
  have h1 : bsCore 17 1 1.5 ≤ 17 := by
    rw [bsCore]
    have ha : (0:ℝ) ≤ 17 := by norm_num
    have hx1 : (17:ℝ) * norm_cdf (Real.log (17 / 1) / 1.5 + 1.5 / 2) ≤ 17 * 1 :=
      mul_le_mul_of_nonneg_left (norm_cdf_le_one _) ha
    have hx2 : (0:ℝ) ≤ 1 * norm_cdf (Real.log (17 / 1) / 1.5 - 1.5 / 2) :=
      mul_nonneg (by norm_num) (norm_cdf_nonneg _)
    linarith
  have hlog23 : 1 ≤ Real.log (23 / 1) := by
    rw [show (23:ℝ) / 1 = 23 by norm_num]
    rw [Real.le_log_iff_exp_le (by norm_num : (0:ℝ) < 23)]
    linarith [Real.exp_one_lt_d9]
  have hd1 : (1 : ℝ) ≤ Real.log (23 / 1) / 0.5 + 0.5 / 2 := by
    have er : Real.log (23 / 1) / 0.5 = Real.log (23 / 1) * 2 := by ring
    rw [er]
    linarith
  have hphi : (0.841 : ℝ) ≤ norm_cdf (Real.log (23 / 1) / 0.5 + 0.5 / 2) :=
    le_trans phi1 (norm_cdf_mono hd1)
  have h2 : (23:ℝ) * norm_cdf (Real.log (23 / 1) / 0.5 + 0.5 / 2) - 1 ≤
      bsCore 23 1 0.5 := by
    rw [bsCore]
    have hx2 : (1:ℝ) * norm_cdf (Real.log (23 / 1) / 0.5 - 0.5 / 2) ≤ 1 * 1 :=
      mul_le_mul_of_nonneg_left (norm_cdf_le_one _) (by norm_num)
    linarith
  nlinarith

/-- The engine state used by the C3 counterexample: strike 1, rate 0,
`T = 100 + 7/365`, `sigma_iv = -0.05`, market price 1, one contract,
parametrised by the spot. -/
def tieEngine (S : ℝ) : Scenarios.ScenarioEngine :=
  Scenarios.mkEngine (mkPricer S 1 (100 + 7 / 365) 0 (-0.05) (-0.05)) 1 1

end BlackScholes

namespace Scenarios

theorem argmaxLast_seven (r0 r1 r2 r3 r4 r5 r6 : ScenarioResult)
    (e56 : r5.pnl = r6.pnl) (l6 : r6.pnl < r4.pnl) (l3 : r3.pnl < r4.pnl)
    (l2 : r2.pnl < r4.pnl) (l1 : r1.pnl < r4.pnl) (e04 : r0.pnl = r4.pnl) :
    argmaxLast r0 [r1, r2, r3, r4, r5, r6] = r4 := by
  have h6 : argmaxLast r6 [] = r6 := rfl
  have h5 : argmaxLast r5 [r6] = r6 := by
    show (if (argmaxLast r6 []).pnl < r5.pnl then r5 else argmaxLast r6 []) = r6
    rw [h6, if_neg (not_lt_of_le (le_of_eq e56))]
  have h4 : argmaxLast r4 [r5, r6] = r4 := by
    show (if (argmaxLast r5 [r6]).pnl < r4.pnl then r4 else argmaxLast r5 [r6]) = r4
    rw [h5, if_pos l6]
  have h3 : argmaxLast r3 [r4, r5, r6] = r4 := by
    show (if (argmaxLast r4 [r5, r6]).pnl < r3.pnl then r3 else argmaxLast r4 [r5, r6]) = r4
    rw [h4, if_neg (not_lt_of_le (le_of_lt l3))]
  have h2 : argmaxLast r2 [r3, r4, r5, r6] = r4 := by
    show (if (argmaxLast r3 [r4, r5, r6]).pnl < r2.pnl then r2
      else argmaxLast r3 [r4, r5, r6]) = r4
    rw [h3, if_neg (not_lt_of_le (le_of_lt l2))]
  have h1 : argmaxLast r1 [r2, r3, r4, r5, r6] = r4 := by
    show (if (argmaxLast r2 [r3, r4, r5, r6]).pnl < r1.pnl then r1
      else argmaxLast r2 [r3, r4, r5, r6]) = r4
    rw [h2, if_neg (not_lt_of_le (le_of_lt l1))]
  show (if (argmaxLast r1 [r2, r3, r4, r5, r6]).pnl < r0.pnl then r0
    else argmaxLast r1 [r2, r3, r4, r5, r6]) = r4
  rw [h1, if_neg (not_lt_of_le (le_of_eq e04))]

theorem argmaxFirst_seven (r0 r1 r2 r3 r4 r5 r6 : ScenarioResult)
    (e56 : r5.pnl = r6.pnl) (l5 : r5.pnl < r4.pnl) (l3 : r3.pnl < r4.pnl)
    (l2 : r2.pnl < r4.pnl) (l1 : r1.pnl < r4.pnl) (e04 : r0.pnl = r4.pnl) :
    argmaxFirst r0 [r1, r2, r3, r4, r5, r6] = r0 := by
  have h6 : argmaxFirst r6 [] = r6 := rfl
  have h5 : argmaxFirst r5 [r6] = r5 := by
    show (if (argmaxFirst r6 []).pnl ≤ r5.pnl then r5 else argmaxFirst r6 []) = r5
    rw [h6, if_pos (le_of_eq e56.symm)]
  have h4 : argmaxFirst r4 [r5, r6] = r4 := by
    show (if (argmaxFirst r5 [r6]).pnl ≤ r4.pnl then r4 else argmaxFirst r5 [r6]) = r4
    rw [h5, if_pos (le_of_lt l5)]
  have h3 : argmaxFirst r3 [r4, r5, r6] = r4 := by
    show (if (argmaxFirst r4 [r5, r6]).pnl ≤ r3.pnl then r3 else argmaxFirst r4 [r5, r6]) = r4
    rw [h4, if_neg (not_le_of_lt l3)]
  have h2 : argmaxFirst r2 [r3, r4, r5, r6] = r4 := by
    show (if (argmaxFirst r3 [r4, r5, r6]).pnl ≤ r2.pnl then r2
      else argmaxFirst r3 [r4, r5, r6]) = r4
    rw [h3, if_neg (not_le_of_lt l2)]
  have h1 : argmaxFirst r1 [r2, r3, r4, r5, r6] = r4 := by
    show (if (argmaxFirst r2 [r3, r4, r5, r6]).pnl ≤ r1.pnl then r1
      else argmaxFirst r2 [r3, r4, r5, r6]) = r4
    rw [h2, if_neg (not_le_of_lt l1)]
  show (if (argmaxFirst r1 [r2, r3, r4, r5, r6]).pnl ≤ r0.pnl then r0
    else argmaxFirst r1 [r2, r3, r4, r5, r6]) = r0
  rw [h1, if_pos (le_of_eq e04.symm)]

end Scenarios

namespace BlackScholes

open Scenarios

/-- At a spot where the Bull-shocked and Crash-shocked values agree and
no other scenario matches them, `run` reports `Crash` (the later of the
two tied maximisers) as best, while the first score-maximal scenario in
list order is `Bull Rally`. -/
theorem tie_results_eval (S : ℝ) (hS : 0 < S)
    (htie : bsCore (1.15 * S) 1 0.5 = bsCore (0.85 * S) 1 1.5) :
    (run (tieEngine S)).best.name = "Crash" ∧
    (argmaxFirst ((results (tieEngine S)).headI) ((results (tieEngine S)).tail)).name =
      "Bull Rally" ∧
    (run (tieEngine S)).best ≠
      argmaxFirst ((results (tieEngine S)).headI) ((results (tieEngine S)).tail) := by
  set R0 := scenarioResult (tieEngine S) ⟨"Bull Rally", 0.15, -0.05, 7⟩ with hR0
  set R1 := scenarioResult (tieEngine S) ⟨"Moderate Up", 0.05, 0.0, 7⟩ with hR1
  set R2 := scenarioResult (tieEngine S) ⟨"Flat", 0.0, 0.0, 7⟩ with hR2
  set R3 := scenarioResult (tieEngine S) ⟨"Moderate Down", -0.05, 0.05, 7⟩ with hR3
  set R4 := scenarioResult (tieEngine S) ⟨"Crash", -0.15, 0.20, 7⟩ with hR4
  set R5 := scenarioResult (tieEngine S) ⟨"Vol Spike", 0.0, 0.10, 7⟩ with hR5
  set R6 := scenarioResult (tieEngine S) ⟨"Vol Crush", 0.0, -0.10, 7⟩ with hR6
  have hres : results (tieEngine S) = [R0, R1, R2, R3, R4, R5, R6] := rfl
  have hnewT : (tieEngine S).newT 7 = 100 := by
    rw [Scenarios.ScenarioEngine.newT]
    rw [show (tieEngine S).T = 100 + 7 / 365 by
      show max (100 + 7 / 365) 0.001 = 100 + 7 / 365
      rw [max_eq_left]; norm_num]
    rw [show (100 : ℝ) + 7 / 365 - 7 / 365 = 100 by norm_num]
    rw [max_eq_left]; norm_num
  have hsqrt100 : Real.sqrt 100 = 10 := by
    rw [show (100:ℝ) = 10 ^ 2 by norm_num, Real.sqrt_sq (by norm_num : (0:ℝ) ≤ 10)]
  have hprice : ∀ x sigma' : ℝ, 0 < x → 0 < sigma' →
      Scenarios.bs_call (x * S) 1 100 0 sigma' = bsCore (x * S) 1 (sigma' * 10) := by
    intro x sigma' hx hsig
    rw [scen_bs_call_eq_bsCore (x * S) 1 100 0 sigma' (mul_pos hx hS) (by norm_num)
      (by norm_num) hsig]
    rw [show (-0 : ℝ) * 100 = 0 by norm_num, Real.exp_zero, mul_one, hsqrt100]
  have hpnl : ∀ chg vchg : ℝ, 0 < 1 + chg →
      (tieEngine S).calculate_scenario_pnl chg vchg 7 =
        (bsCore ((1 + chg) * S) 1 (max (-0.05 + vchg) 0.05 * 10) - 1) * 100 := by
    intro chg vchg hc
    have hσ : (0:ℝ) < max (-0.05 + vchg) 0.05 :=
      lt_of_lt_of_le (by norm_num) (le_max_right _ _)
    have hp := hprice (1 + chg) (max (-0.05 + vchg) 0.05) hc hσ
    show (Scenarios.bs_call (S * (1 + chg)) 1 ((tieEngine S).newT 7) 0
        (max (-0.05 + vchg) 0.05) - 1) * 100 * 1 = _
    rw [hnewT, mul_comm S (1 + chg), hp]
    ring
  have hp0 : R0.pnl = (bsCore (1.15 * S) 1 0.5 - 1) * 100 := by
    show (tieEngine S).calculate_scenario_pnl 0.15 (-0.05) 7 =
      (bsCore (1.15 * S) 1 0.5 - 1) * 100
    rw [hpnl 0.15 (-0.05) (by norm_num)]
    rw [show max (-0.05 + -0.05 : ℝ) 0.05 = 0.05 from max_eq_right (by norm_num)]
    norm_num
  have hp1 : R1.pnl = (bsCore (1.05 * S) 1 0.5 - 1) * 100 := by
    show (tieEngine S).calculate_scenario_pnl 0.05 0.0 7 =
      (bsCore (1.05 * S) 1 0.5 - 1) * 100
    rw [hpnl 0.05 0.0 (by norm_num)]
    rw [show max (-0.05 + 0.0 : ℝ) 0.05 = 0.05 from max_eq_right (by norm_num)]
    norm_num
  have hp2 : R2.pnl = (bsCore S 1 0.5 - 1) * 100 := by
    show (tieEngine S).calculate_scenario_pnl 0.0 0.0 7 =
      (bsCore S 1 0.5 - 1) * 100
    rw [hpnl 0.0 0.0 (by norm_num)]
    rw [show max (-0.05 + 0.0 : ℝ) 0.05 = 0.05 from max_eq_right (by norm_num)]
    rw [show ((1:ℝ) + 0.0) * S = S by norm_num]
    norm_num
  have hp3 : R3.pnl = (bsCore (0.95 * S) 1 0.5 - 1) * 100 := by
    show (tieEngine S).calculate_scenario_pnl (-0.05) 0.05 7 =
      (bsCore (0.95 * S) 1 0.5 - 1) * 100
    rw [hpnl (-0.05) 0.05 (by norm_num)]
    rw [show max (-0.05 + 0.05 : ℝ) 0.05 = 0.05 from max_eq_right (by norm_num)]
    norm_num
  have hp4 : R4.pnl = (bsCore (0.85 * S) 1 1.5 - 1) * 100 := by
    show (tieEngine S).calculate_scenario_pnl (-0.15) 0.20 7 =
      (bsCore (0.85 * S) 1 1.5 - 1) * 100
    rw [hpnl (-0.15) 0.20 (by norm_num)]
    rw [show max (-0.05 + 0.20 : ℝ) 0.05 = 0.15 by
      rw [show (-0.05 + 0.20 : ℝ) = 0.15 by norm_num]
      exact max_eq_left (by norm_num)]
    norm_num
  have hp5 : R5.pnl = (bsCore S 1 0.5 - 1) * 100 := by
    show (tieEngine S).calculate_scenario_pnl 0.0 0.10 7 =
      (bsCore S 1 0.5 - 1) * 100
    rw [hpnl 0.0 0.10 (by norm_num)]
    rw [show max (-0.05 + 0.10 : ℝ) 0.05 = 0.05 by
      rw [show (-0.05 + 0.10 : ℝ) = 0.05 by norm_num]
      exact max_eq_left (by norm_num)]
    rw [show ((1:ℝ) + 0.0) * S = S by norm_num]
    norm_num
  have hp6 : R6.pnl = (bsCore S 1 0.5 - 1) * 100 := by
    show (tieEngine S).calculate_scenario_pnl 0.0 (-0.10) 7 =
      (bsCore S 1 0.5 - 1) * 100
    rw [hpnl 0.0 (-0.10) (by norm_num)]
    rw [show max (-0.05 + -0.10 : ℝ) 0.05 = 0.05 from max_eq_right (by norm_num)]
    rw [show ((1:ℝ) + 0.0) * S = S by norm_num]
    norm_num
  have hlt105 : bsCore (1.05 * S) 1 0.5 < bsCore (1.15 * S) 1 0.5 :=
    bsCore_spot_lt 1 0.5 one_pos (by norm_num) (mul_pos (by norm_num) hS) (by nlinarith)
  have hlt095 : bsCore (0.95 * S) 1 0.5 < bsCore (1.15 * S) 1 0.5 :=
    bsCore_spot_lt 1 0.5 one_pos (by norm_num) (mul_pos (by norm_num) hS) (by nlinarith)
  have hlt1 : bsCore S 1 0.5 < bsCore (1.15 * S) 1 0.5 :=
    bsCore_spot_lt 1 0.5 one_pos (by norm_num) hS (by nlinarith)
  have e56 : R5.pnl = R6.pnl := by rw [hp5, hp6]
  have e04 : R0.pnl = R4.pnl := by rw [hp0, hp4, htie]
  have l6 : R6.pnl < R4.pnl := by rw [hp6, hp4, ← htie]; linarith
  have l5 : R5.pnl < R4.pnl := by rw [hp5, hp4, ← htie]; linarith
  have l3 : R3.pnl < R4.pnl := by rw [hp3, hp4, ← htie]; linarith
  have l2 : R2.pnl < R4.pnl := by rw [hp2, hp4, ← htie]; linarith
  have l1 : R1.pnl < R4.pnl := by rw [hp1, hp4, ← htie]; linarith
  have hL : argmaxLast R0 [R1, R2, R3, R4, R5, R6] = R4 :=
    argmaxLast_seven R0 R1 R2 R3 R4 R5 R6 e56 l6 l3 l2 l1 e04
  have hF : argmaxFirst R0 [R1, R2, R3, R4, R5, R6] = R0 :=
    argmaxFirst_seven R0 R1 R2 R3 R4 R5 R6 e56 l5 l3 l2 l1 e04
  have hne : results (tieEngine S) ≠ [] := by rw [hres]; simp
  have hbest : (run (tieEngine S)).best = R4 := by
    calc (run (tieEngine S)).best
        = (sortByPnl (results (tieEngine S))).getLastD default := rfl
      _ = argmaxLast (results (tieEngine S)).headI (results (tieEngine S)).tail :=
          sortByPnl_getLastD_of_ne_nil hne
      _ = argmaxLast R0 [R1, R2, R3, R4, R5, R6] := by rw [hres]; rfl
      _ = R4 := hL
  have hfirst : argmaxFirst ((results (tieEngine S)).headI)
      ((results (tieEngine S)).tail) = R0 := by
    calc argmaxFirst ((results (tieEngine S)).headI) ((results (tieEngine S)).tail)
        = argmaxFirst R0 [R1, R2, R3, R4, R5, R6] := by rw [hres]; rfl
      _ = R0 := hF
  refine ⟨?_, ?_, ?_⟩
  · rw [hbest]; rfl
  · rw [hfirst]; rfl
  · rw [hbest, hfirst]
    intro heq
    have hname := congrArg ScenarioResult.name heq
    have : ("Crash" : String) = "Bull Rally" := hname
    exact absurd this (by decide)

/-- C3: counterexample to "ties broken by list order, first occurrence wins".
By the intermediate value theorem there is a spot S between 1 and 20 at
which the Bull Rally scenario (index 0) and the Crash scenario (index 4)
of `tieEngine S` have exactly equal pnl, strictly above all other
scenarios; the stable ascending sort then places Crash last, so
`run` reports Crash as best, whereas the first maximiser in list order is
Bull Rally. -/
theorem C3_tie_counterexample :
    ∃ S : ℝ, 0 < S ∧ (Scenarios.run (tieEngine S)).best.name = "Crash" ∧
      (Scenarios.argmaxFirst ((Scenarios.results (tieEngine S)).headI)
        ((Scenarios.results (tieEngine S)).tail)).name = "Bull Rally" ∧
      (Scenarios.run (tieEngine S)).best ≠
        Scenarios.argmaxFirst ((Scenarios.results (tieEngine S)).headI)
          ((Scenarios.results (tieEngine S)).tail) := by
  have hcont : ContinuousOn
      (fun y : ℝ => bsCore (1.15 * y) 1 0.5 - bsCore (0.85 * y) 1 1.5)
      (Set.Icc (1 : ℝ) 20) := by
    intro x hx
    have hxpos : (0 : ℝ) < x := lt_of_lt_of_le one_pos hx.1
    have hp1 : (0 : ℝ) < 1.15 * x := by nlinarith
    have hp2 : (0 : ℝ) < 0.85 * x := by nlinarith
    have c1 : ContinuousAt (fun y : ℝ => bsCore (1.15 * y) 1 0.5) x := by
      have hb : ContinuousAt (fun z : ℝ => bsCore z 1 0.5) (1.15 * x) :=
        (bsCore_hasDerivAt_spot 1 0.5 one_pos (by norm_num) hp1).continuousAt
      exact hb.comp (continuousAt_const.mul continuousAt_id)
    have c2 : ContinuousAt (fun y : ℝ => bsCore (0.85 * y) 1 1.5) x := by
      have hb : ContinuousAt (fun z : ℝ => bsCore z 1 1.5) (0.85 * x) :=
        (bsCore_hasDerivAt_spot 1 1.5 one_pos (by norm_num) hp2).continuousAt
      exact hb.comp (continuousAt_const.mul continuousAt_id)
    exact (c1.sub c2).continuousWithinAt
  have hg1 : bsCore (1.15 * 1) 1 0.5 - bsCore (0.85 * 1) 1 1.5 < 0 := by
    rw [show (1.15 : ℝ) * 1 = 1.15 by norm_num, show (0.85 : ℝ) * 1 = 0.85 by norm_num]
    linarith [bsCore_atm_ineq]
  have hg20 : 0 < bsCore (1.15 * 20) 1 0.5 - bsCore (0.85 * 20) 1 1.5 := by
    rw [show (1.15 : ℝ) * 20 = 23 by norm_num, show (0.85 : ℝ) * 20 = 17 by norm_num]
    linarith [bsCore_itm_ineq]
  have h0 : (0 : ℝ) ∈ Set.Icc
      (bsCore (1.15 * 1) 1 0.5 - bsCore (0.85 * 1) 1 1.5)
      (bsCore (1.15 * 20) 1 0.5 - bsCore (0.85 * 20) 1 1.5) :=
    ⟨le_of_lt hg1, le_of_lt hg20⟩
  obtain ⟨S, hSmem, hgS⟩ :=
    intermediate_value_Icc (by norm_num : (1 : ℝ) ≤ 20) hcont h0
  have hSpos : (0 : ℝ) < S := lt_of_lt_of_le one_pos hSmem.1
  have htie : bsCore (1.15 * S) 1 0.5 = bsCore (0.85 * S) 1 1.5 :=
    sub_eq_zero.mp hgS
  exact ⟨S, hSpos, tie_results_eval S hSpos htie⟩

end BlackScholes
